import Mathlib

/-
Verification development for the alix undo/redo history engine
(src/alix/history_manager.py).

The embedding is a shallow translation of `HistoryManager` into Lean:

* Python dict values occurring in operation records are modelled by the
  small universes `FVal` (field value inside an alias snapshot) and
  `OVal` (field value inside an operation record).  A snapshot is an
  association list `Snap`, an operation record an association list
  `RawOp`; `dget`/`oget` model `dict.get` (first matching key).
* Python truthiness of snapshot name values is modelled by `fvalFalsy`.
* Exceptions that the source catches per item are modelled by
  `PyResult` (`.ok v` for a normal return, `.exn` for a raised
  exception); state mutated before an exception is preserved, as in
  Python, by threading the `Storage` alongside the `PyResult`.
* Python `None` appearing where the code builds a string-valued name
  or tag (e.g. `op.get("old_name")` absent in the `rename` branch) is
  modelled as the empty string "": no alias or tag constructed by
  `Alias.from_dict` is empty, so on the states reachable in the claims
  the two are interchangeable placeholders for "no such alias/tag".
* The alias store is the external collaborator of §6 of the spec; its
  state is its keyed mapping from names to aliases, modelled
  extensionally as `String → Option Alias`.
-/

inductive FVal where
  | fnone : FVal
  | fstr : String → FVal
  | flist : List String → FVal
deriving DecidableEq, Repr

abbrev Snap := List (String × FVal)

inductive OVal where
  | onone : OVal
  | ostr : String → OVal
  | ostrs : List String → OVal
  | osnaps : List Snap → OVal
deriving DecidableEq, Repr

abbrev RawOp := List (String × OVal)

/-- Result of running a piece of Python code that may raise: `.ok v` is a
normal return of value `v`, `.exn` a raised (and later caught) exception. -/
inductive PyResult (α : Type) where
  | ok : α → PyResult α
  | exn : PyResult α
deriving DecidableEq, Repr

/-- `d.get(k)` on a snapshot dict: `none` means the key is absent
(Python `None` default). -/
def dget (d : Snap) (k : String) : Option FVal :=
  (d.find? (fun kv => kv.1 = k)).map (fun kv => kv.2)

/-- `op.get(k)` on an operation record. -/
def oget (op : RawOp) (k : String) : Option OVal :=
  (op.find? (fun kv => kv.1 = k)).map (fun kv => kv.2)

/-- `k in op` on an operation record. -/
def hasKey (op : RawOp) (k : String) : Bool :=
  op.any (fun kv => kv.1 = k)

/-- `op.get(k)` where the code uses the value as a string (names, tags,
group names): a missing or non-string value is `none` (Python `None`). -/
def ogetStr (op : RawOp) (k : String) : Option String :=
  match oget op k with
  | some (OVal.ostr s) => some s
  | _ => none

/-- `op.get(k, [])` where the code iterates the value as a list of alias
snapshots. -/
def ogetSnaps (op : RawOp) (k : String) : List Snap :=
  match oget op k with
  | some (OVal.osnaps xs) => xs
  | _ => []

/-- `op.get(k, [])` where the code iterates the value as a list of tag
strings. -/
def ogetStrs (op : RawOp) (k : String) : List String :=
  match oget op k with
  | some (OVal.ostrs xs) => xs
  | _ => []

/-- Python truthiness of a snapshot field value (`if not name`). -/
def fvalFalsy : FVal → Bool
  | FVal.fnone => true
  | FVal.fstr s => s = ""
  | FVal.flist l => l.isEmpty

/-- An alias record (name → command, optional group, ordered tags). -/
structure Alias where
  name : String
  command : String
  group : Option String := none
  tags : List String := []
deriving DecidableEq, Repr

/-- Reads the `group` field of a snapshot. -/
def groupField : Option FVal → PyResult (Option String)
  | none => PyResult.ok none
  | some FVal.fnone => PyResult.ok none
  | some (FVal.fstr s) => PyResult.ok (some s)
  | some (FVal.flist _) => PyResult.exn

/-- Reads the `tags` field of a snapshot. -/
def tagsField : Option FVal → PyResult (List String)
  | none => PyResult.ok []
  | some FVal.fnone => PyResult.ok []
  | some (FVal.flist xs) => PyResult.ok xs
  | some (FVal.fstr _) => PyResult.exn

/-- Modelled from the spec: `alix/models.py` (`Alias.from_dict`) is not
included under src/.  Per §6 of the spec an alias supports "construction
from ... a snapshot mapping with fields `name` (required, non-empty),
`command`, optional `group`, optional `tags`"; a snapshot violating this
makes construction raise (`.exn`), which `_load_alias` propagates so the
caller can skip the item. -/
def Alias.from_dict (d : Snap) : PyResult Alias :=
  match dget d "name", dget d "command" with
  | some (FVal.fstr n), some (FVal.fstr c) =>
    if n = "" then PyResult.exn
    else
      match groupField (dget d "group"), tagsField (dget d "tags") with
      | PyResult.ok g, PyResult.ok ts => PyResult.ok { name := n, command := c, group := g, tags := ts }
      | _, _ => PyResult.exn
  | _, _ => PyResult.exn

/-- Modelled from the spec: the external alias store (`alix/storage.py`,
not under src/), reduced to the contract of §6: a keyed mapping from
names to alias objects, with `add`/`remove` entry points and directly
writable `aliases`.  The observable state is the mapping. -/
structure Storage where
  aliases : String → Option Alias

/-- `storage.aliases[name] = alias` (direct mapping write). -/
def Storage.setItem (st : Storage) (n : String) (a : Alias) : Storage :=
  ⟨fun m => if m = n then some a else st.aliases m⟩

/-- Modelled from the spec: `add(alias, record_history=False)` inserts or
overwrites by name and returns a truthy success value. -/
def Storage.add (st : Storage) (a : Alias) : Storage × PyResult Bool :=
  (st.setItem a.name a, PyResult.ok true)

/-- Modelled from the spec: `remove(name, record_history=False)` deletes
by name; removing an absent name returns a falsy value
(cf. test_remove_nonexistent). -/
def Storage.remove (st : Storage) (n : String) : Storage × PyResult Bool :=
  match st.aliases n with
  | some _ => (⟨fun m => if m = n then none else st.aliases m⟩, PyResult.ok true)
  | none => (st, PyResult.ok false)

/-- `create_backup()` snapshots the alias file; it does not change the
live mapping. -/
def Storage.create_backup (st : Storage) : Storage := st

/-- `save()` persists the alias file; it does not change the live
mapping. -/
def Storage.save (st : Storage) : Storage := st

/-! ## history_manager.py -/

def MAX_HISTORY : Nat := 20

def known_types : List String :=
  ["add", "remove", "edit", "import", "rename",
   "group_add", "group_remove", "group_delete",
   "tag_add", "tag_remove", "tag_rename", "tag_delete",
   "group_import", "remove_group"]

/-- Substring test on char lists (Python `sub in s`). -/
def containsSub (sub : List Char) : List Char → Bool
  | [] => sub.isEmpty
  | c :: t => sub.isPrefixOf (c :: t) || containsSub sub t

/-- Python `sub in s` for strings. -/
def strContains (s sub : String) : Bool := containsSub sub.data s.data

/-- `HistoryManager._format_message`. -/
def _format_message (action : String) (op_type : String) (count total : Nat) (skipped : Nat) : String :=
  if skipped > 0 then
    -- the source has an if/else here whose two arms return the same string
    if action = "Undid" || action = "Redid" then
      action ++ " " ++ op_type ++ " (" ++ toString count ++ " of " ++ toString total ++
        " aliases " ++ (if strContains op_type "remove" then "restored" else "processed") ++
        ", " ++ toString skipped ++ " skipped)"
    else
      action ++ " " ++ op_type ++ " (" ++ toString count ++ " of " ++ toString total ++
        " aliases " ++ (if strContains op_type "remove" then "restored" else "processed") ++
        ", " ++ toString skipped ++ " skipped)"
  else if count ≠ total then
    action ++ " " ++ op_type ++ " (" ++ toString count ++ " of " ++ toString total ++
      " aliases " ++ (if strContains op_type "remove" then "restored" else "processed") ++ ")"
  else
    let alias_word := if count ≠ 1 then "aliases" else "alias"
    if op_type = "remove_group" then
      action ++ " " ++ op_type ++ " (" ++ toString count ++ " " ++ alias_word ++ " restored)"
    else if op_type = "add" || op_type = "import" then
      action ++ " " ++ op_type ++ " (" ++ toString count ++ " " ++ alias_word ++ " " ++
        (if action = "Redid" then "added" else "removed") ++ ")"
    else if op_type = "edit" then
      action ++ " " ++ op_type ++ " (" ++ toString count ++ " " ++ alias_word ++ " " ++
        (if action = "Redid" then "updated" else "restored") ++ ")"
    else if op_type = "group_add" || op_type = "group_remove" || op_type = "tag_add" ||
            op_type = "tag_remove" || op_type = "tag_rename" || op_type = "tag_delete" ||
            op_type = "group_import" then
      action ++ " " ++ op_type ++ " (" ++ toString count ++ " " ++ alias_word ++ " processed)"
    else if op_type = "rename" then
      action ++ " " ++ op_type ++ " (" ++ toString count ++ " " ++ alias_word ++ " " ++
        (if action = "Redid" then "renamed" else "renamed back") ++ ")"
    else if op_type = "group_delete" then
      action ++ " " ++ op_type ++ " (" ++ toString count ++ " " ++ alias_word ++ " reassigned)"
    else
      action ++ " " ++ op_type ++ " (" ++ toString count ++ " " ++ alias_word ++ " " ++
        (if action = "Redid" then "removed" else "restored") ++ ")"

/-- `HistoryManager._for_each_alias`: best-effort apply over a sequence of
snapshots; a snapshot whose reconstruction fails, or whose action raises,
is counted as skipped and processing continues. -/
def _for_each_alias (aliases : List Snap) (fn : Alias → Storage → Storage × PyResult Bool)
    (st : Storage) : Nat × Nat × Storage :=
  match aliases with
  | [] => (0, 0, st)
  | a :: rest =>
    match Alias.from_dict a with
    | PyResult.exn =>
      let r := _for_each_alias rest fn st
      (r.1, r.2.1 + 1, r.2.2)
    | PyResult.ok al =>
      match fn al st with
      | (st1, PyResult.ok b) =>
        let r := _for_each_alias rest fn st1
        (if b then r.1 + 1 else r.1, r.2.1, r.2.2)
      | (st1, PyResult.exn) =>
        let r := _for_each_alias rest fn st1
        (r.1, r.2.1 + 1, r.2.2)

/-- `HistoryManager._for_each_name`: per item, a falsy `name` field is
counted as skipped and the item ignored; otherwise the action runs on the
name value and a raised exception is counted as skipped. -/
def _for_each_name (aliases : List Snap) (fn : FVal → Storage → Storage × PyResult Bool)
    (st : Storage) : Nat × Nat × Storage :=
  match aliases with
  | [] => (0, 0, st)
  | a :: rest =>
    match dget a "name" with
    | none =>
      let r := _for_each_name rest fn st
      (r.1, r.2.1 + 1, r.2.2)
    | some v =>
      if fvalFalsy v then
        let r := _for_each_name rest fn st
        (r.1, r.2.1 + 1, r.2.2)
      else
        match fn v st with
        | (st1, PyResult.ok b) =>
          let r := _for_each_name rest fn st1
          (if b then r.1 + 1 else r.1, r.2.1, r.2.2)
        | (st1, PyResult.exn) =>
          let r := _for_each_name rest fn st1
          (r.1, r.2.1 + 1, r.2.2)

/-- `HistoryManager._set_group`. -/
def _set_group (st : Storage) (al : Alias) (group : Option String) : Storage × PyResult Bool :=
  let al := { al with group := group }
  (st.setItem al.name al, PyResult.ok true)

/-- `HistoryManager._add_tags` (append each tag not already present). -/
def _add_tags (tags : List String) (ts : List String) : List String :=
  ts.foldl (fun acc tag => if tag ∈ acc then acc else acc ++ [tag]) tags

/-- `HistoryManager._remove_tags` (remove the first occurrence of each
present tag). -/
def _remove_tags (tags : List String) (ts : List String) : List String :=
  ts.foldl (fun acc tag => if tag ∈ acc then acc.erase tag else acc) tags

inductive Dir where
  | undo : Dir
  | redo : Dir
deriving DecidableEq, Repr

/-- The `op.get(...)` reads performed by `_execute_operation`, gathered
from the operation record. -/
structure OpFields where
  op_type : Option String
  typeDisplay : String
  aliases : List Snap
  new_aliases : List Snap
  old_name : Option String
  new_name : Option String
  group_name : Option String
  reassign_to : Option String
  added_tags : List String
  removed_tags : List String
  old_tag : Option String
  new_tag : Option String
  deleted_tag : Option String

/-- How `f"{op_type}"` renders the raw `type` value. -/
def typeDisplayOf (op : RawOp) : String :=
  match oget op "type" with
  | some (OVal.ostr s) => s
  | some OVal.onone => "None"
  | none => "None"
  | some _ => "?"

def readFields (op : RawOp) : OpFields :=
  { op_type := ogetStr op "type"
    typeDisplay := typeDisplayOf op
    aliases := ogetSnaps op "aliases"
    new_aliases := ogetSnaps op "new_aliases"
    old_name := ogetStr op "old_name"
    new_name := ogetStr op "new_name"
    group_name := ogetStr op "group_name"
    reassign_to := ogetStr op "reassign_to"
    added_tags := ogetStrs op "added_tags"
    removed_tags := ogetStrs op "removed_tags"
    old_tag := ogetStr op "old_tag"
    new_tag := ogetStr op "new_tag"
    deleted_tag := ogetStr op "deleted_tag" }

/-- The `storage.remove(name)` item action of `_for_each_name`: a
non-string (unhashable) truthy name makes the store raise inside the
per-item try. -/
def removeNameFn (v : FVal) (st : Storage) : Storage × PyResult Bool :=
  match v with
  | FVal.fstr s => st.remove s
  | _ => (st, PyResult.exn)

/-- Item action `lambda alias: storage.add(alias, record_history=False)`. -/
def addAliasFn (al : Alias) (st : Storage) : Storage × PyResult Bool :=
  st.add al

/-- Item action of the `edit` branch:
`(storage.remove(alias.name), storage.add(alias))[1]`. -/
def editFn (al : Alias) (st : Storage) : Storage × PyResult Bool :=
  let r := st.remove al.name
  r.1.add al

/-- Item action of the `rename` branch:
`(storage.remove(n), setattr(alias, "name", o), storage.add(alias), True)[-1]`. -/
def renameFn (removeName : String) (setTo : String) (al : Alias) (st : Storage) :
    Storage × PyResult Bool :=
  let r := st.remove removeName
  let al := { al with name := setTo }
  let r2 := r.1.add al
  (r2.1, PyResult.ok true)

/-- Item action `lambda alias: self._set_group(storage, alias, g)`. -/
def setGroupFn (g : Option String) (al : Alias) (st : Storage) : Storage × PyResult Bool :=
  _set_group st al g

/-- Item action of the tag_add undo / tag_remove redo branches:
`(self._remove_tags(alias, ts), storage.aliases[alias.name] = alias, True)[-1]`. -/
def tagsRemoveFn (ts : List String) (al : Alias) (st : Storage) : Storage × PyResult Bool :=
  let al := { al with tags := _remove_tags al.tags ts }
  (st.setItem al.name al, PyResult.ok true)

/-- Item action of the tag_add redo / tag_remove undo branches. -/
def tagsAddFn (ts : List String) (al : Alias) (st : Storage) : Storage × PyResult Bool :=
  let al := { al with tags := _add_tags al.tags ts }
  (st.setItem al.name al, PyResult.ok true)

/-- `t in alias.tags` where `t` is `op.get(...)` (possibly `None`). -/
def optMem (t : Option String) (l : List String) : Bool :=
  match t with
  | some s => s ∈ l
  | none => false

/-- Item action of the tag_rename branches:
`frm in alias.tags and (alias.tags = [to if tag == frm else tag ...], store, True)[-1]`;
when the guard is false the expression evaluates to the falsy guard. -/
def tagRenameFn (frm : Option String) (toTag : Option String) (al : Alias) (st : Storage) :
    Storage × PyResult Bool :=
  if optMem frm al.tags then
    let al := { al with
      tags := al.tags.map (fun tag => if some tag = frm then toTag.getD "" else tag) }
    (st.setItem al.name al, PyResult.ok true)
  else (st, PyResult.ok false)

/-- Item action of the group_import undo branch:
`self._set_group(storage, al, None) if al.group == group_name else True`. -/
def groupImportUndoFn (group_name : Option String) (al : Alias) (st : Storage) :
    Storage × PyResult Bool :=
  if al.group = group_name then _set_group st al none else (st, PyResult.ok true)

/-- The dispatch of `HistoryManager._execute_operation` over the
operation kinds, returning (performed, skipped, storage). -/
def execBody (storage : Storage) (f : OpFields) (direction : Dir) : Nat × Nat × Storage :=
  if f.op_type = some "add" then
    if direction = Dir.undo then
      _for_each_name f.aliases removeNameFn storage
    else
      _for_each_alias f.aliases addAliasFn storage
  else if f.op_type = some "remove" || f.op_type = some "remove_group" then
    if direction = Dir.undo then
      _for_each_alias f.aliases addAliasFn storage
    else
      _for_each_name f.aliases removeNameFn storage
  else if f.op_type = some "edit" then
    if direction = Dir.undo then
      _for_each_alias f.aliases editFn storage
    else
      _for_each_alias f.new_aliases editFn storage
  else if f.op_type = some "import" then
    if direction = Dir.undo then
      _for_each_name f.aliases removeNameFn storage
    else
      _for_each_alias f.aliases addAliasFn storage
  else if f.op_type = some "rename" then
    if direction = Dir.undo then
      _for_each_alias f.aliases (renameFn (f.new_name.getD "") (f.old_name.getD "")) storage
    else
      _for_each_alias f.aliases (renameFn (f.old_name.getD "") (f.new_name.getD "")) storage
  else if f.op_type = some "group_add" then
    if direction = Dir.undo then
      let r := _for_each_alias f.aliases (setGroupFn none) storage.create_backup
      (r.1, r.2.1, r.2.2.save)
    else
      let r := _for_each_alias f.aliases (setGroupFn f.group_name) storage.create_backup
      (r.1, r.2.1, r.2.2.save)
  else if f.op_type = some "group_remove" then
    if direction = Dir.undo then
      let r := _for_each_alias f.aliases (setGroupFn f.group_name) storage.create_backup
      (r.1, r.2.1, r.2.2.save)
    else
      let r := _for_each_alias f.aliases (setGroupFn none) storage
      (r.1, r.2.1, r.2.2.save)
  else if f.op_type = some "group_delete" then
    if direction = Dir.undo then
      let r := _for_each_alias f.aliases (setGroupFn f.group_name) storage.create_backup
      (r.1, r.2.1, r.2.2.save)
    else
      let r := _for_each_alias f.aliases (setGroupFn f.reassign_to) storage
      (r.1, r.2.1, r.2.2.save)
  else if f.op_type = some "tag_add" then
    if direction = Dir.undo then
      let r := _for_each_alias f.aliases (tagsRemoveFn f.added_tags) storage.create_backup
      (r.1, r.2.1, r.2.2.save)
    else
      let r := _for_each_alias f.aliases (tagsAddFn f.added_tags) storage
      (r.1, r.2.1, r.2.2.save)
  else if f.op_type = some "tag_remove" then
    if direction = Dir.undo then
      let r := _for_each_alias f.aliases (tagsAddFn f.removed_tags) storage.create_backup
      (r.1, r.2.1, r.2.2.save)
    else
      let r := _for_each_alias f.aliases (tagsRemoveFn f.removed_tags) storage
      (r.1, r.2.1, r.2.2.save)
  else if f.op_type = some "tag_rename" then
    if direction = Dir.undo then
      let r := _for_each_alias f.aliases (tagRenameFn f.new_tag f.old_tag) storage.create_backup
      (r.1, r.2.1, r.2.2.save)
    else
      let r := _for_each_alias f.aliases (tagRenameFn f.old_tag f.new_tag) storage
      (r.1, r.2.1, r.2.2.save)
  else if f.op_type = some "tag_delete" then
    if direction = Dir.undo then
      let r := _for_each_alias f.aliases (tagsAddFn [f.deleted_tag.getD ""]) storage.create_backup
      (r.1, r.2.1, r.2.2.save)
    else
      let r := _for_each_alias f.aliases (tagsRemoveFn [f.deleted_tag.getD ""]) storage
      (r.1, r.2.1, r.2.2.save)
  else if f.op_type = some "group_import" then
    if direction = Dir.undo then
      let r := _for_each_alias f.aliases (groupImportUndoFn f.group_name) storage.create_backup
      (r.1, r.2.1, r.2.2.save)
    else
      let r := _for_each_alias f.aliases (setGroupFn f.group_name) storage
      (r.1, r.2.1, r.2.2.save)
  else
    (0, 0, storage)

/-- `HistoryManager._execute_operation`, split into field reads
(`readFields`), dispatch (`execBody`) and message formatting. -/
def execCore (storage : Storage) (f : OpFields) (direction : Dir) :
    String × Nat × Nat × Storage :=
  let r := execBody storage f direction
  let action := if direction = Dir.undo then "Undid" else "Redid"
  (_format_message action f.typeDisplay r.1 f.aliases.length r.2.1, r.1, r.2.1, r.2.2)

def _execute_operation (storage : Storage) (op : RawOp) (direction : Dir) :
    String × Nat × Nat × Storage :=
  execCore storage (readFields op) direction

/-- The persisted journal document `{"undo": [...], "redo": [...]}`. -/
structure Journal where
  undo : List RawOp
  redo : List RawOp
deriving DecidableEq, Repr

/-- In-memory `HistoryManager` state: the two stacks and the persisted
journal file. -/
structure HistoryManager where
  undo : List RawOp
  redo : List RawOp
  file : Journal
deriving DecidableEq, Repr

/-- The history file as found on disk at load time. -/
inductive FileContent where
  | missing : FileContent
  | corrupt : FileContent
  | parsed : Journal → FileContent

/-- `HistoryManager.load`: a missing file and a corrupt file both reset
the stacks to empty; a parsed document is taken as-is (no validation). -/
def loadStacks : FileContent → List RawOp × List RawOp
  | FileContent.missing => ([], [])
  | FileContent.corrupt => ([], [])
  | FileContent.parsed doc => (doc.undo, doc.redo)

def HistoryManager.fromFile (fc : FileContent) : HistoryManager :=
  { undo := (loadStacks fc).1
    redo := (loadStacks fc).2
    file := match fc with
            | FileContent.parsed doc => doc
            | _ => ⟨[], []⟩ }

/-- `self.undo[-MAX_HISTORY:]` as used by `save`. -/
def trimLast (l : List RawOp) : List RawOp := l.drop (l.length - MAX_HISTORY)

/-- `HistoryManager.save`: writes the (trimmed) stacks to the file. -/
def HistoryManager.save (hm : HistoryManager) : HistoryManager :=
  { hm with file := ⟨trimLast hm.undo, trimLast hm.redo⟩ }

/-- The stack trim performed inline by push/undo/redo:
`if len(stack) > MAX_HISTORY: stack = stack[-MAX_HISTORY:]`. -/
def trimIf (l : List RawOp) : List RawOp :=
  if l.length > MAX_HISTORY then l.drop (l.length - MAX_HISTORY) else l

inductive PushError where
  | invalidOperation : PushError
  | unknownType : PushError
  | aliasesNotList : PushError
deriving DecidableEq, Repr

/-- `op["type"] in known_types` (false when the key is missing or the
value is not a string). -/
def typeKnown (op : RawOp) : Bool :=
  match oget op "type" with
  | some (OVal.ostr s) => s ∈ known_types
  | _ => false

/-- `isinstance(op["aliases"], list)`. -/
def aliasesIsList (op : RawOp) : Bool :=
  match oget op "aliases" with
  | some (OVal.osnaps _) => true
  | some (OVal.ostrs _) => true
  | _ => false

/-- `op.setdefault("timestamp", datetime.now().isoformat())` on the
copied record (new dict keys append). -/
def stampTimestamp (op : RawOp) (now : String) : RawOp :=
  if hasKey op "timestamp" then op else op ++ [("timestamp", OVal.ostr now)]

/-- `HistoryManager.push`: validate, stamp, append to undo, trim, clear
redo, save.  A validation failure raises before any mutation. -/
def HistoryManager.push (hm : HistoryManager) (op : RawOp) (now : String) :
    Except PushError HistoryManager :=
  if ¬ (hasKey op "type" && hasKey op "aliases") then Except.error PushError.invalidOperation
  else if ¬ typeKnown op then Except.error PushError.unknownType
  else if ¬ aliasesIsList op then Except.error PushError.aliasesNotList
  else
    let op := stampTimestamp op now
    let undo := hm.undo ++ [op]
    let undo := trimIf undo
    Except.ok (HistoryManager.save { hm with undo := undo, redo := [] })

def nothing_to_undo : String := "⚠️  Nothing to undo – history is empty."

def nothing_to_redo : String := "⚠️  Nothing to redo – already at the latest state."

/-- `HistoryManager.perform_undo`. -/
def HistoryManager.perform_undo (hm : HistoryManager) (storage : Storage) :
    String × HistoryManager × Storage :=
  match hm.undo.getLast? with
  | none => (nothing_to_undo, hm, storage)
  | some op =>
    let undo := hm.undo.dropLast
    let r := _execute_operation storage op Dir.undo
    let redo := trimIf (hm.redo ++ [op])
    ("✅ " ++ r.1, HistoryManager.save { hm with undo := undo, redo := redo }, r.2.2.2)

/-- `HistoryManager.perform_redo`. -/
def HistoryManager.perform_redo (hm : HistoryManager) (storage : Storage) :
    String × HistoryManager × Storage :=
  match hm.redo.getLast? with
  | none => (nothing_to_redo, hm, storage)
  | some op =>
    let redo := hm.redo.dropLast
    let r := _execute_operation storage op Dir.redo
    let undo := trimIf (hm.undo ++ [op])
    ("🔁 " ++ r.1, HistoryManager.save { hm with undo := undo, redo := redo }, r.2.2.2)

/-- The invalid-id message of the by-id entry points. -/
def invalid_id_msg (operation_id : Int) (len : Nat) : String :=
  "❌ Invalid operation ID: " ++ toString operation_id ++ ". Valid range: 1-" ++ toString len

/-- `HistoryManager.perform_undo_by_id` (1-based id, 1 = most recent). -/
def HistoryManager.perform_undo_by_id (hm : HistoryManager) (storage : Storage)
    (operation_id : Int) : String × HistoryManager × Storage :=
  if operation_id < 1 ∨ operation_id > (hm.undo.length : Int) then
    (invalid_id_msg operation_id hm.undo.length, hm, storage)
  else
    let op_index := hm.undo.length - operation_id.toNat
    let op := hm.undo.getD op_index []
    let undo := hm.undo.eraseIdx op_index
    let r := _execute_operation storage op Dir.undo
    let redo := trimIf (hm.redo ++ [op])
    ("✅ " ++ r.1, HistoryManager.save { hm with undo := undo, redo := redo }, r.2.2.2)

/-- `HistoryManager.perform_redo_by_id` (1-based id, 1 = most recent). -/
def HistoryManager.perform_redo_by_id (hm : HistoryManager) (storage : Storage)
    (operation_id : Int) : String × HistoryManager × Storage :=
  if operation_id < 1 ∨ operation_id > (hm.redo.length : Int) then
    (invalid_id_msg operation_id hm.redo.length, hm, storage)
  else
    let op_index := hm.redo.length - operation_id.toNat
    let op := hm.redo.getD op_index []
    let redo := hm.redo.eraseIdx op_index
    let r := _execute_operation storage op Dir.redo
    let undo := trimIf (hm.undo ++ [op])
    ("🔁 " ++ r.1, HistoryManager.save { hm with undo := undo, redo := redo }, r.2.2.2)

/-! ## Store-effect analysis of the per-item actions

Each per-item action of `_execute_operation` either leaves the store
unchanged or writes one value at one key; a whole pass is the fold of
these effects.  `applyEff` replays a list of effects at one key. -/

/-- One per-item store effect: `some (k, w)` sets key `k` to `w`
(`w = none` deletes it), `none` leaves the store unchanged. -/
abbrev Eff := Option (String × Option Alias)

def applyEff (effs : List Eff) (n : String) (v : Option Alias) : Option Alias :=
  effs.foldl (fun acc e =>
    match e with
    | some (k, w) => if k = n then w else acc
    | none => acc) v

/-- Does some effect in the list write at key `n`? -/
def targeted (effs : List Eff) (n : String) : Bool :=
  effs.any (fun e => match e with | some (k, _) => k = n | none => false)

/-- The store effect of an alias-level action, lifted to a snapshot:
an unparseable snapshot has no effect. -/
def snapEffA (eff : Alias → Eff) (sn : Snap) : Eff :=
  match Alias.from_dict sn with
  | PyResult.ok a => eff a
  | PyResult.exn => none

/-- The store effect of one `_for_each_name` item under
`removeNameFn`: a truthy string name is deleted, anything else is a
no-op on the store. -/
def snapEffName (sn : Snap) : Eff :=
  match dget sn "name" with
  | some (FVal.fstr s) => if s = "" then none else some (s, none)
  | _ => none

/-- `fn`'s store behaviour is exactly the single-key effect `eff`. -/
def FnEffProp (fn : Alias → Storage → Storage × PyResult Bool) (eff : Alias → Eff) : Prop :=
  ∀ a st m, ((fn a st).1).aliases m =
    match eff a with
    | some (k, w) => if k = m then w else st.aliases m
    | none => st.aliases m

def effAdd (a : Alias) : Eff := some (a.name, some a)

def effSetGroup (g : Option String) (a : Alias) : Eff :=
  some (a.name, some { a with group := g })

def effTagsAdd (ts : List String) (a : Alias) : Eff :=
  some (a.name, some { a with tags := _add_tags a.tags ts })

def effTagsRemove (ts : List String) (a : Alias) : Eff :=
  some (a.name, some { a with tags := _remove_tags a.tags ts })

def effTagRename (frm toTag : Option String) (a : Alias) : Eff :=
  if optMem frm a.tags then
    some (a.name, some { a with
      tags := a.tags.map (fun tag => if some tag = frm then toTag.getD "" else tag) })
  else none

def effGroupImportUndo (g : Option String) (a : Alias) : Eff :=
  if a.group = g then some (a.name, some { a with group := none }) else none

/-- The per-snapshot store effect of the undo direction of the four
snapshot-gated kinds (tag_add, tag_delete, tag_rename, group_import),
computed from the record's fields alone. -/
def undoEffOf (f : OpFields) : Alias → Eff :=
  if f.op_type = some "tag_add" then effTagsRemove f.added_tags
  else if f.op_type = some "tag_delete" then effTagsAdd [f.deleted_tag.getD ""]
  else if f.op_type = some "tag_rename" then effTagRename f.new_tag f.old_tag
  else effGroupImportUndo f.group_name

/-- The validation performed by `push`. -/
def validShape (op : RawOp) : Bool :=
  hasKey op "type" && hasKey op "aliases" && typeKnown op && aliasesIsList op

/-- `P a` at the alias a snapshot reconstructs to; `false` when the
snapshot does not reconstruct. -/
def snapB (sn : Snap) (p : Alias → Bool) : Bool :=
  match Alias.from_dict sn with
  | PyResult.ok a => p a
  | PyResult.exn => false

/-- `op` is a truthful record whose forward action has just been applied,
leaving the store at `S`: every snapshot reconstructs, and the store
carries, at each snapshot's name, exactly the value the record's redo
(forward re-application) writes there.  For `tag_rename` this
additionally requires each snapshot carrying `new_tag` to also carry
`old_tag` (as when snapshots record the pre-rename tag state); see the
C1 counterexample for why the round trip fails without it. -/
def recordConsistent (op : RawOp) (S : Storage) : Bool :=
  let f := readFields op
  if f.op_type = some "add" ∨ f.op_type = some "import" then
    f.aliases.all (fun sn => snapB sn (fun a => decide (S.aliases a.name = some a)))
  else if f.op_type = some "remove" ∨ f.op_type = some "remove_group" then
    f.aliases.all (fun sn => snapB sn (fun a => decide (S.aliases a.name = none)))
  else if f.op_type = some "edit" then
    (f.aliases.all (fun sn => snapB sn (fun a =>
      f.new_aliases.any (fun sn2 => snapB sn2 (fun a2 => decide (a2.name = a.name)))))) &&
    (f.new_aliases.all (fun sn2 => snapB sn2 (fun a2 => decide (S.aliases a2.name = some a2))))
  else if f.op_type = some "rename" then
    match f.old_name, f.new_name with
    | some o, some nn =>
      f.aliases.all (fun sn => snapB sn (fun a =>
        decide (S.aliases nn = some { a with name := nn }))) &&
      (f.aliases.isEmpty || (decide (nn = o) || decide (S.aliases o = none)))
    | _, _ => false
  else if f.op_type = some "group_add" then
    f.aliases.all (fun sn => snapB sn (fun a =>
      decide (S.aliases a.name = some { a with group := f.group_name })))
  else if f.op_type = some "group_remove" then
    f.aliases.all (fun sn => snapB sn (fun a =>
      decide (S.aliases a.name = some { a with group := none })))
  else if f.op_type = some "group_delete" then
    f.aliases.all (fun sn => snapB sn (fun a =>
      decide (S.aliases a.name = some { a with group := f.reassign_to })))
  else if f.op_type = some "tag_add" then
    f.aliases.all (fun sn => snapB sn (fun a =>
      decide (S.aliases a.name = some { a with tags := _add_tags a.tags f.added_tags })))
  else if f.op_type = some "tag_remove" then
    f.aliases.all (fun sn => snapB sn (fun a =>
      decide (S.aliases a.name = some { a with tags := _remove_tags a.tags f.removed_tags })))
  else if f.op_type = some "tag_rename" then
    f.aliases.all (fun sn => snapB sn (fun a =>
      (!(optMem f.new_tag a.tags) || optMem f.old_tag a.tags) &&
      (!(optMem f.old_tag a.tags) ||
        decide (S.aliases a.name = some { a with
          tags := a.tags.map (fun tag => if some tag = f.old_tag then f.new_tag.getD "" else tag) }))))
  else if f.op_type = some "tag_delete" then
    f.aliases.all (fun sn => snapB sn (fun a =>
      decide (S.aliases a.name = some { a with tags := _remove_tags a.tags [f.deleted_tag.getD ""] })))
  else if f.op_type = some "group_import" then
    f.aliases.all (fun sn => snapB sn (fun a =>
      decide (S.aliases a.name = some { a with group := f.group_name })))
  else false

/-! ## Call sequences against a `HistoryManager` -/

/-- One call to a mutating entry point of the manager.  A `push` whose
validation raises leaves the manager unchanged (the validation precedes
every mutation). -/
inductive HAction where
  | push : RawOp → String → HAction
  | undo : Storage → HAction
  | redo : Storage → HAction
  | undoById : Storage → Int → HAction
  | redoById : Storage → Int → HAction

def applyAction (hm : HistoryManager) : HAction → HistoryManager
  | HAction.push op now =>
    match hm.push op now with
    | Except.ok hm2 => hm2
    | Except.error _ => hm
  | HAction.undo st => (hm.perform_undo st).2.1
  | HAction.redo st => (hm.perform_redo st).2.1
  | HAction.undoById st i => (hm.perform_undo_by_id st i).2.1
  | HAction.redoById st i => (hm.perform_redo_by_id st i).2.1

def runActions (hm : HistoryManager) (acts : List HAction) : HistoryManager :=
  acts.foldl applyAction hm

/-- A fresh manager whose history file does not exist yet. -/
def initHM : HistoryManager := HistoryManager.fromFile FileContent.missing

/-- Every record in both stacks passes the push-time validation. -/
def stacksValid (hm : HistoryManager) : Bool :=
  (hm.undo ++ hm.redo).all validShape

/-! ## Concrete instances -/

/-- The spec's forward action for `tag_rename` (§4.2 table, redo column,
following the spec's words): "for aliases currently carrying `old_tag`,
replace with `new_tag`", read from the live store. -/
def spec_tag_rename_forward (S : Storage) (oldT newT : String) : Storage :=
  ⟨fun n => (S.aliases n).map (fun a =>
    if oldT ∈ a.tags then
      { a with tags := a.tags.map (fun t => if t = oldT then newT else t) }
    else a)⟩

def c1Snap : Snap :=
  [("name", FVal.fstr "t"), ("command", FVal.fstr "c"), ("tags", FVal.flist ["new"])]

def c1Alias : Alias := { name := "t", command := "c", group := none, tags := ["new"] }

def c1Op : RawOp :=
  [("type", OVal.ostr "tag_rename"), ("aliases", OVal.osnaps [c1Snap]),
   ("old_tag", OVal.ostr "old"), ("new_tag", OVal.ostr "new"),
   ("timestamp", OVal.ostr "T")]

/-- The store before the forward tag rename: alias `t` carries `old`. -/
def c1Pre : Storage :=
  ⟨fun n => if n = "t" then some { name := "t", command := "c", group := none, tags := ["old"] }
            else none⟩

/-- The store immediately after the forward action was applied. -/
def c1Post : Storage := spec_tag_rename_forward c1Pre "old" "new"

/-- push `c1Op`, then `perform_undo`, then `perform_redo`, starting from
the post-forward store. -/
def c1Run : Storage :=
  match initHM.push c1Op "T" with
  | Except.ok hm1 =>
    let u := hm1.perform_undo c1Post
    let r := u.2.1.perform_redo u.2.2
    r.2.2
  | Except.error _ => c1Post

def c1wSnap : Snap := [("name", FVal.fstr "a"), ("command", FVal.fstr "echo 1")]

def c1wOp : RawOp := [("type", OVal.ostr "add"), ("aliases", OVal.osnaps [c1wSnap])]

def c1wStore : Storage :=
  ⟨fun n => if n = "a" then some { name := "a", command := "echo 1", group := none, tags := [] }
            else none⟩

def c3Snap : Snap :=
  [("name", FVal.fstr "t3"), ("command", FVal.fstr "c"), ("tags", FVal.flist ["new"])]

def c3Op : RawOp :=
  [("type", OVal.ostr "tag_rename"), ("aliases", OVal.osnaps [c3Snap]),
   ("old_tag", OVal.ostr "old"), ("new_tag", OVal.ostr "new"),
   ("timestamp", OVal.ostr "T")]

/-- Live store in which alias `t3` does NOT currently carry `new`. -/
def c3Store : Storage :=
  ⟨fun n => if n = "t3" then some { name := "t3", command := "c", group := none, tags := [] }
            else none⟩

def c3wSnap : Snap :=
  [("name", FVal.fstr "t3"), ("command", FVal.fstr "c"), ("tags", FVal.flist ["x", "y"])]

def c3wOp : RawOp :=
  [("type", OVal.ostr "tag_add"), ("aliases", OVal.osnaps [c3wSnap]),
   ("added_tags", OVal.ostrs ["y"]), ("timestamp", OVal.ostr "T")]

def c4Bad : RawOp := [("type", OVal.ostr "bogus"), ("aliases", OVal.osnaps [])]

def c4wOp : RawOp := [("type", OVal.ostr "add"), ("aliases", OVal.osnaps [])]

def emptyStore : Storage := ⟨fun _ => none⟩

def c5wOp : RawOp := [("type", OVal.ostr "remove"), ("aliases", OVal.osnaps [])]

def c7Good : Snap := [("name", FVal.fstr "valid"), ("command", FVal.fstr "echo ok")]

def c7Bad : Snap := [("invalid", FVal.fstr "data")]

def c7Op : RawOp :=
  [("type", OVal.ostr "add"), ("aliases", OVal.osnaps [c7Good, c7Bad]),
   ("timestamp", OVal.ostr "T")]

def c7Store : Storage :=
  ⟨fun n => if n = "valid" then some { name := "valid", command := "echo ok", group := none, tags := [] }
            else none⟩

def c8Op1 : RawOp := [("type", OVal.ostr "add"), ("aliases", OVal.osnaps []), ("timestamp", OVal.ostr "T1")]

def c8Op2 : RawOp := [("type", OVal.ostr "remove"), ("aliases", OVal.osnaps []), ("timestamp", OVal.ostr "T2")]

def c8HM : HistoryManager := ⟨[c8Op1, c8Op2], [c8Op1], ⟨[], []⟩⟩

def c10Snap : Snap :=
  [("name", FVal.fstr "x"), ("command", FVal.fstr "c"), ("tags", FVal.flist ["other"])]

def c10Op : RawOp :=
  [("type", OVal.ostr "tag_rename"), ("aliases", OVal.osnaps [c10Snap]),
   ("old_tag", OVal.ostr "old"), ("new_tag", OVal.ostr "new"),
   ("timestamp", OVal.ostr "T")]

def c10Store : Storage :=
  ⟨fun n => if n = "x" then some { name := "x", command := "c", group := none, tags := ["other"] }
            else none⟩

/-! ## Lemmas: replaying effect lists -/

theorem applyEff_nil (n : String) (v : Option Alias) : applyEff [] n v = v := rfl

theorem applyEff_cons (e : Eff) (effs : List Eff) (n : String) (v : Option Alias) :
    applyEff (e :: effs) n v =
      applyEff effs n (match e with
        | some (k, w) => if k = n then w else v
        | none => v) := rfl

theorem targeted_of_mem {effs : List Eff} {k : String} {w : Option Alias}
    (h : some (k, w) ∈ effs) : targeted effs k = true := by
  unfold targeted
  rw [List.any_eq_true]
  exact ⟨some (k, w), h, by simp⟩

theorem applyEff_not_targeted (effs : List Eff) (n : String)
    (h : targeted effs n = false) : ∀ v, applyEff effs n v = v := by
  induction effs with
  | nil => intro v; rfl
  | cons e rest ih =>
    intro v
    unfold targeted at h
    rw [List.any_cons, Bool.or_eq_false_iff] at h
    obtain ⟨h1, h2⟩ := h
    rw [applyEff_cons]
    cases e with
    | none => exact ih h2 v
    | some kw =>
      rcases kw with ⟨k, w⟩
      simp only [decide_eq_false_iff_not] at h1
      dsimp only
      rw [if_neg h1]
      exact ih h2 v

theorem applyEff_const (effs : List Eff) (n : String) (h : targeted effs n = true) :
    ∀ v u, applyEff effs n v = applyEff effs n u := by
  induction effs with
  | nil => simp [targeted] at h
  | cons e rest ih =>
    intro v u
    rw [applyEff_cons, applyEff_cons]
    by_cases hr : targeted rest n = true
    · exact ih hr _ _
    · rw [Bool.not_eq_true] at hr
      unfold targeted at h
      rw [List.any_cons, Bool.or_eq_true_iff] at h
      rcases h with h | h
      · cases e with
        | none => simp at h
        | some kw =>
          rcases kw with ⟨k, w⟩
          simp only [decide_eq_true_eq] at h
          dsimp only
          rw [if_pos h, if_pos h]
      · exact absurd (show targeted rest n = true from h) (by rw [hr]; simp)

theorem applyEff_restore (effs : List Eff) (S : Storage) (n : String)
    (hm : ∀ e ∈ effs, ∀ k w, e = some (k, w) → w = S.aliases k) :
    ∀ v, (v = S.aliases n ∨ targeted effs n = true) → applyEff effs n v = S.aliases n := by
  induction effs with
  | nil =>
    intro v hv
    rcases hv with h | h
    · rw [applyEff_nil]; exact h
    · simp [targeted] at h
  | cons e rest ih =>
    intro v hv
    have hmr : ∀ e ∈ rest, ∀ k w, e = some (k, w) → w = S.aliases k :=
      fun e he => hm e (List.mem_cons_of_mem _ he)
    rw [applyEff_cons]
    cases e with
    | none =>
      apply ih hmr
      rcases hv with h | h
      · exact Or.inl h
      · right
        unfold targeted at h ⊢
        rw [List.any_cons] at h
        simpa using h
    | some kw =>
      rcases kw with ⟨k, w⟩
      dsimp only
      by_cases hk : k = n
      · apply ih hmr
        left
        rw [if_pos hk]
        rw [hm (some (k, w)) (List.mem_cons_self _ _) k w rfl, hk]
      · rw [if_neg hk]
        apply ih hmr
        rcases hv with h | h
        · exact Or.inl h
        · right
          unfold targeted at h ⊢
          rw [List.any_cons, Bool.or_eq_true_iff] at h
          rcases h with h | h
          · exact absurd (of_decide_eq_true h) hk
          · exact h

theorem roundtrip_kernel (uEffs rEffs : List Eff) (S : Storage) (n : String)
    (hmatch : ∀ e ∈ rEffs, ∀ k w, e = some (k, w) → w = S.aliases k)
    (hcover : ∀ e ∈ uEffs, ∀ k w, e = some (k, w) → targeted rEffs k = true) :
    applyEff rEffs n (applyEff uEffs n (S.aliases n)) = S.aliases n := by
  by_cases ht : targeted rEffs n = true
  · exact applyEff_restore rEffs S n hmatch _ (Or.inr ht)
  · have hu : targeted uEffs n = false := by
      by_contra hcon
      rw [Bool.not_eq_false] at hcon
      unfold targeted at hcon
      rw [List.any_eq_true] at hcon
      obtain ⟨e, he, hpe⟩ := hcon
      cases e with
      | none => simp at hpe
      | some kw =>
        rcases kw with ⟨k, w⟩
        simp only [decide_eq_true_eq] at hpe
        subst hpe
        exact ht (hcover _ he _ _ rfl)
    rw [applyEff_not_targeted _ _ hu]
    exact applyEff_restore rEffs S n hmatch _ (Or.inl rfl)

theorem applyEff_idem (effs : List Eff) (n : String) (v : Option Alias) :
    applyEff effs n (applyEff effs n v) = applyEff effs n v := by
  by_cases ht : targeted effs n = true
  · exact applyEff_const effs n ht _ _
  · rw [Bool.not_eq_true] at ht
    rw [applyEff_not_targeted _ _ ht]

/-! ## Lemmas: pointwise behaviour of the per-item actions -/

theorem setItem_aliases (st : Storage) (nm : String) (a : Alias) (m : String) :
    (st.setItem nm a).aliases m = if nm = m then some a else st.aliases m := by
  unfold Storage.setItem
  dsimp only
  by_cases h : m = nm
  · subst h; simp
  · rw [if_neg h, if_neg (fun hh => h hh.symm)]

theorem remove_aliases (st : Storage) (nm m : String) :
    ((st.remove nm).1).aliases m = if nm = m then none else st.aliases m := by
  unfold Storage.remove
  cases h : st.aliases nm with
  | some a =>
    dsimp only
    by_cases hm : m = nm
    · subst hm; simp
    · rw [if_neg hm, if_neg (fun hh => hm hh.symm)]
  | none =>
    dsimp only
    by_cases hm : nm = m
    · rw [if_pos hm, ← hm, h]
    · rw [if_neg hm]

theorem addAliasFn_eff : FnEffProp addAliasFn effAdd := by
  intro a st m
  unfold addAliasFn Storage.add effAdd
  dsimp only
  exact setItem_aliases st a.name a m

theorem editFn_eff : FnEffProp editFn effAdd := by
  intro a st m
  unfold editFn Storage.add effAdd
  dsimp only
  rw [setItem_aliases, remove_aliases]
  by_cases h : a.name = m
  · rw [if_pos h, if_pos h]
  · rw [if_neg h, if_neg h, if_neg h]

theorem setGroupFn_eff (g : Option String) : FnEffProp (setGroupFn g) (effSetGroup g) := by
  intro a st m
  unfold setGroupFn _set_group effSetGroup
  dsimp only
  exact setItem_aliases st a.name _ m

theorem tagsAddFn_eff (ts : List String) : FnEffProp (tagsAddFn ts) (effTagsAdd ts) := by
  intro a st m
  unfold tagsAddFn effTagsAdd
  dsimp only
  exact setItem_aliases st a.name _ m

theorem tagsRemoveFn_eff (ts : List String) : FnEffProp (tagsRemoveFn ts) (effTagsRemove ts) := by
  intro a st m
  unfold tagsRemoveFn effTagsRemove
  dsimp only
  exact setItem_aliases st a.name _ m

theorem tagRenameFn_eff (frm toTag : Option String) :
    FnEffProp (tagRenameFn frm toTag) (effTagRename frm toTag) := by
  intro a st m
  unfold tagRenameFn effTagRename
  by_cases h : optMem frm a.tags = true
  · rw [if_pos h, if_pos h]
    dsimp only
    exact setItem_aliases st a.name _ m
  · rw [if_neg h, if_neg h]

theorem groupImportUndoFn_eff (g : Option String) :
    FnEffProp (groupImportUndoFn g) (effGroupImportUndo g) := by
  intro a st m
  unfold groupImportUndoFn effGroupImportUndo _set_group
  by_cases h : a.group = g
  · rw [if_pos h, if_pos h]
    dsimp only
    exact setItem_aliases st a.name _ m
  · rw [if_neg h, if_neg h]

/-! ## Lemmas: whole-pass store characterization -/

theorem for_each_alias_store (snaps : List Snap) (fn : Alias → Storage → Storage × PyResult Bool)
    (eff : Alias → Eff) (hfn : FnEffProp fn eff) :
    ∀ st n, ((_for_each_alias snaps fn st).2.2).aliases n =
      applyEff (snaps.map (snapEffA eff)) n (st.aliases n) := by
  induction snaps with
  | nil => intro st n; rfl
  | cons sn rest ih =>
    intro st n
    rw [List.map_cons, applyEff_cons]
    unfold _for_each_alias
    cases hd : Alias.from_dict sn with
    | exn =>
      dsimp only
      rw [ih st n]
      have he : snapEffA eff sn = none := by unfold snapEffA; rw [hd]
      rw [he]
    | ok a =>
      have he : snapEffA eff sn = eff a := by unfold snapEffA; rw [hd]
      rw [he]
      rcases hf : fn a st with ⟨st1, rb⟩
      have hst1 : st1.aliases n =
          match eff a with
          | some (k, w) => if k = n then w else st.aliases n
          | none => st.aliases n := by
        have h2 := hfn a st n
        rw [hf] at h2
        exact h2
      dsimp only
      rw [hf]
      cases rb with
      | ok b =>
        dsimp only
        rw [ih st1 n, hst1]
      | exn =>
        dsimp only
        rw [ih st1 n, hst1]

theorem for_each_name_store (snaps : List Snap) :
    ∀ st n, ((_for_each_name snaps removeNameFn st).2.2).aliases n =
      applyEff (snaps.map snapEffName) n (st.aliases n) := by
  induction snaps with
  | nil => intro st n; rfl
  | cons sn rest ih =>
    intro st n
    rw [List.map_cons, applyEff_cons]
    unfold _for_each_name
    cases hd : dget sn "name" with
    | none =>
      dsimp only
      rw [ih st n]
      have he : snapEffName sn = none := by unfold snapEffName; rw [hd]
      rw [he]
    | some v =>
      cases v with
      | fnone =>
        have he : snapEffName sn = none := by unfold snapEffName; rw [hd]
        rw [he]
        dsimp only [fvalFalsy]
        rw [if_pos rfl]
        exact ih st n
      | flist l =>
        have he : snapEffName sn = none := by unfold snapEffName; rw [hd]
        rw [he]
        dsimp only
        by_cases hl : fvalFalsy (FVal.flist l) = true
        · rw [if_pos hl]
          exact ih st n
        · rw [if_neg hl]
          dsimp only [removeNameFn]
          exact ih st n
      | fstr s =>
        have he : snapEffName sn =
            if s = "" then none else some (s, none) := by
          unfold snapEffName; rw [hd]
        rw [he]
        dsimp only
        by_cases hs : s = ""
        · rw [if_pos hs, if_pos (by simp [fvalFalsy, hs])]
          exact ih st n
        · rw [if_neg hs, if_neg (by simp [fvalFalsy, hs])]
          dsimp only [removeNameFn]
          rcases hf : st.remove s with ⟨st1, rb⟩
          have hst1 : st1.aliases n = if s = n then none else st.aliases n := by
            have h2 := remove_aliases st s n
            rw [hf] at h2
            exact h2
          cases rb with
          | ok b =>
            dsimp only
            rw [ih st1 n, hst1]
          | exn =>
            dsimp only
            rw [ih st1 n, hst1]

/-- A reconstructible snapshot's raw `name` field is its alias's
(non-empty) name. -/
theorem from_dict_name {sn : Snap} {a : Alias} (h : Alias.from_dict sn = PyResult.ok a) :
    dget sn "name" = some (FVal.fstr a.name) ∧ a.name ≠ "" := by
  unfold Alias.from_dict at h
  cases hn : dget sn "name" with
  | none => rw [hn] at h; cases h
  | some v =>
    cases v with
    | fnone => rw [hn] at h; cases h
    | flist l => rw [hn] at h; cases h
    | fstr nm =>
      rw [hn] at h
      cases hc : dget sn "command" with
      | none => rw [hc] at h; cases h
      | some w =>
        cases w with
        | fnone => rw [hc] at h; cases h
        | flist l2 => rw [hc] at h; cases h
        | fstr cm =>
          rw [hc] at h
          dsimp only at h
          by_cases hnm : nm = ""
          · rw [if_pos hnm] at h; cases h
          · rw [if_neg hnm] at h
            cases hg : groupField (dget sn "group") with
            | exn => rw [hg] at h; cases h
            | ok g =>
              cases ht : tagsField (dget sn "tags") with
              | exn => rw [hg, ht] at h; cases h
              | ok ts =>
                rw [hg, ht] at h
                dsimp only at h
                cases h
                exact ⟨rfl, hnm⟩

/-! ## Lemmas: undo-then-redo round trips per operation kind -/

theorem roundtrip_alias_passes
    (snapsU snapsR : List Snap) (S : Storage)
    (fnU fnR : Alias → Storage → Storage × PyResult Bool)
    (effU effR : Alias → Eff)
    (hU : FnEffProp fnU effU) (hR : FnEffProp fnR effR)
    (hcov : ∀ sn ∈ snapsU, ∀ a, Alias.from_dict sn = PyResult.ok a →
      ∀ k w, effU a = some (k, w) → targeted (snapsR.map (snapEffA effR)) k = true)
    (hmatch : ∀ sn ∈ snapsR, ∀ a, Alias.from_dict sn = PyResult.ok a →
      ∀ k w, effR a = some (k, w) → w = S.aliases k) :
    ∀ n, ((_for_each_alias snapsR fnR ((_for_each_alias snapsU fnU S).2.2)).2.2).aliases n
      = S.aliases n := by
  intro n
  rw [for_each_alias_store snapsR fnR effR hR, for_each_alias_store snapsU fnU effU hU]
  apply roundtrip_kernel
  · intro e he k w hew
    rw [List.mem_map] at he
    obtain ⟨sn, hsn, hesn⟩ := he
    unfold snapEffA at hesn
    cases hd : Alias.from_dict sn with
    | exn => rw [hd] at hesn; rw [← hesn] at hew; cases hew
    | ok a =>
      rw [hd] at hesn
      rw [← hesn] at hew
      exact hmatch sn hsn a hd k w hew
  · intro e he k w hew
    rw [List.mem_map] at he
    obtain ⟨sn, hsn, hesn⟩ := he
    unfold snapEffA at hesn
    cases hd : Alias.from_dict sn with
    | exn => rw [hd] at hesn; rw [← hesn] at hew; cases hew
    | ok a =>
      rw [hd] at hesn
      rw [← hesn] at hew
      exact hcov sn hsn a hd k w hew

theorem roundtrip_add (snaps : List Snap) (S : Storage)
    (h : ∀ sn ∈ snaps, ∃ a, Alias.from_dict sn = PyResult.ok a ∧ S.aliases a.name = some a) :
    ∀ n, ((_for_each_alias snaps addAliasFn
            ((_for_each_name snaps removeNameFn S).2.2)).2.2).aliases n = S.aliases n := by
  intro n
  rw [for_each_alias_store snaps addAliasFn effAdd addAliasFn_eff, for_each_name_store snaps]
  apply roundtrip_kernel
  · intro e he k w hew
    rw [List.mem_map] at he
    obtain ⟨sn, hsn, hesn⟩ := he
    obtain ⟨a, hd, hS⟩ := h sn hsn
    unfold snapEffA at hesn
    rw [hd] at hesn
    rw [← hesn] at hew
    unfold effAdd at hew
    simp only [Option.some.injEq, Prod.mk.injEq] at hew
    obtain ⟨hk, hw⟩ := hew
    rw [← hw, ← hk]
    exact hS.symm
  · intro e he k w hew
    rw [List.mem_map] at he
    obtain ⟨sn, hsn, hesn⟩ := he
    obtain ⟨a, hd, hS⟩ := h sn hsn
    obtain ⟨hname, hne⟩ := from_dict_name hd
    unfold snapEffName at hesn
    rw [hname] at hesn
    dsimp only at hesn
    rw [if_neg hne] at hesn
    rw [← hesn] at hew
    simp only [Option.some.injEq, Prod.mk.injEq] at hew
    obtain ⟨hk, hw⟩ := hew
    rw [← hk]
    apply targeted_of_mem (w := some a)
    rw [List.mem_map]
    refine ⟨sn, hsn, ?_⟩
    unfold snapEffA
    rw [hd]
    rfl

theorem roundtrip_remove (snaps : List Snap) (S : Storage)
    (h : ∀ sn ∈ snaps, ∃ a, Alias.from_dict sn = PyResult.ok a ∧ S.aliases a.name = none) :
    ∀ n, ((_for_each_name snaps removeNameFn
            ((_for_each_alias snaps addAliasFn S).2.2)).2.2).aliases n = S.aliases n := by
  intro n
  rw [for_each_name_store snaps, for_each_alias_store snaps addAliasFn effAdd addAliasFn_eff]
  apply roundtrip_kernel
  · intro e he k w hew
    rw [List.mem_map] at he
    obtain ⟨sn, hsn, hesn⟩ := he
    obtain ⟨a, hd, hS⟩ := h sn hsn
    obtain ⟨hname, hne⟩ := from_dict_name hd
    unfold snapEffName at hesn
    rw [hname] at hesn
    dsimp only at hesn
    rw [if_neg hne] at hesn
    rw [← hesn] at hew
    simp only [Option.some.injEq, Prod.mk.injEq] at hew
    obtain ⟨hk, hw⟩ := hew
    rw [← hw, ← hk]
    exact hS.symm
  · intro e he k w hew
    rw [List.mem_map] at he
    obtain ⟨sn, hsn, hesn⟩ := he
    obtain ⟨a, hd, hS⟩ := h sn hsn
    unfold snapEffA at hesn
    rw [hd] at hesn
    rw [← hesn] at hew
    unfold effAdd at hew
    simp only [Option.some.injEq, Prod.mk.injEq] at hew
    obtain ⟨hk, hw⟩ := hew
    rw [← hk]
    obtain ⟨hname, hne⟩ := from_dict_name hd
    apply targeted_of_mem (w := none)
    rw [List.mem_map]
    refine ⟨sn, hsn, ?_⟩
    unfold snapEffName
    rw [hname]
    dsimp only
    rw [if_neg hne]

theorem roundtrip_edit (origs news : List Snap) (S : Storage)
    (h1 : ∀ sn ∈ origs, ∀ a, Alias.from_dict sn = PyResult.ok a →
      ∃ sn2 ∈ news, ∃ a2, Alias.from_dict sn2 = PyResult.ok a2 ∧ a2.name = a.name)
    (h2 : ∀ sn2 ∈ news, ∀ a2, Alias.from_dict sn2 = PyResult.ok a2 →
      S.aliases a2.name = some a2) :
    ∀ n, ((_for_each_alias news editFn
            ((_for_each_alias origs editFn S).2.2)).2.2).aliases n = S.aliases n := by
  apply roundtrip_alias_passes origs news S editFn editFn effAdd effAdd editFn_eff editFn_eff
  · intro sn hsn a hd k w hew
    unfold effAdd at hew
    simp only [Option.some.injEq, Prod.mk.injEq] at hew
    obtain ⟨hk, hw⟩ := hew
    obtain ⟨sn2, hsn2, a2, hd2, hn2⟩ := h1 sn hsn a hd
    rw [← hk, ← hn2]
    apply targeted_of_mem (w := some a2)
    rw [List.mem_map]
    refine ⟨sn2, hsn2, ?_⟩
    unfold snapEffA
    rw [hd2]
    rfl
  · intro sn2 hsn2 a2 hd2 k w hew
    unfold effAdd at hew
    simp only [Option.some.injEq, Prod.mk.injEq] at hew
    obtain ⟨hk, hw⟩ := hew
    rw [← hw, ← hk]
    exact (h2 sn2 hsn2 a2 hd2).symm

theorem renameFn_store (rmv setTo : String) (a : Alias) (st : Storage) (m : String) :
    ((renameFn rmv setTo a st).1).aliases m =
      if setTo = m then some { a with name := setTo }
      else if rmv = m then none else st.aliases m := by
  unfold renameFn Storage.add
  dsimp only
  rw [setItem_aliases, remove_aliases]

theorem rename_pass_other (snaps : List Snap) (rmv setTo : String) :
    ∀ st m, m ≠ rmv → m ≠ setTo →
      ((_for_each_alias snaps (renameFn rmv setTo) st).2.2).aliases m = st.aliases m := by
  induction snaps with
  | nil => intro st m _ _; rfl
  | cons sn rest ih =>
    intro st m h1 h2
    unfold _for_each_alias
    cases hd : Alias.from_dict sn with
    | exn =>
      dsimp only
      exact ih st m h1 h2
    | ok a =>
      dsimp only
      rcases hf : renameFn rmv setTo a st with ⟨st1, rb⟩
      have hst1 : st1.aliases m = st.aliases m := by
        have h3 := renameFn_store rmv setTo a st m
        rw [hf] at h3
        dsimp only at h3
        rw [if_neg (fun hh => h2 hh.symm), if_neg (fun hh => h1 hh.symm)] at h3
        exact h3
      cases rb with
      | ok b => dsimp only; rw [ih st1 m h1 h2, hst1]
      | exn => dsimp only; rw [ih st1 m h1 h2, hst1]

theorem rename_redo_main (o nn : String) (S : Storage) :
    ∀ snaps : List Snap,
      (∀ sn ∈ snaps, ∃ a, Alias.from_dict sn = PyResult.ok a ∧
        S.aliases nn = some { a with name := nn }) →
      ∀ st, snaps ≠ [] →
        ((_for_each_alias snaps (renameFn o nn) st).2.2).aliases nn = S.aliases nn ∧
        (o ≠ nn → ((_for_each_alias snaps (renameFn o nn) st).2.2).aliases o = none) := by
  intro snaps
  induction snaps with
  | nil => intro _ st hne; exact absurd rfl hne
  | cons sn rest ih =>
    intro hall st _
    obtain ⟨a, hd, hS⟩ := hall sn (List.mem_cons_self _ _)
    unfold _for_each_alias
    rw [hd]
    dsimp only
    rcases hf : renameFn o nn a st with ⟨st1, rb⟩
    have hnn : st1.aliases nn = some { a with name := nn } := by
      have h3 := renameFn_store o nn a st nn
      rw [hf] at h3
      dsimp only at h3
      rw [if_pos rfl] at h3
      exact h3
    have hoo : o ≠ nn → st1.aliases o = none := by
      intro ho
      have h3 := renameFn_store o nn a st o
      rw [hf] at h3
      dsimp only at h3
      rw [if_neg (fun hh => ho hh.symm), if_pos rfl] at h3
      exact h3
    by_cases hrest : rest = []
    · subst hrest
      cases rb with
      | ok b =>
        dsimp only [_for_each_alias]
        exact ⟨hnn.trans hS.symm, hoo⟩
      | exn =>
        dsimp only [_for_each_alias]
        exact ⟨hnn.trans hS.symm, hoo⟩
    · have hallr : ∀ sn3 ∈ rest, ∃ a3, Alias.from_dict sn3 = PyResult.ok a3 ∧
          S.aliases nn = some { a3 with name := nn } :=
        fun sn3 h3 => hall sn3 (List.mem_cons_of_mem _ h3)
      have hr := ih hallr st1 hrest
      cases rb with
      | ok b =>
        dsimp only
        exact hr
      | exn =>
        dsimp only
        exact hr

theorem roundtrip_rename (snaps : List Snap) (o nn : String) (S : Storage)
    (hall : ∀ sn ∈ snaps, ∃ a, Alias.from_dict sn = PyResult.ok a ∧
      S.aliases nn = some { a with name := nn })
    (hold : snaps ≠ [] → (nn = o ∨ S.aliases o = none)) :
    ∀ n, ((_for_each_alias snaps (renameFn o nn)
            ((_for_each_alias snaps (renameFn nn o) S).2.2)).2.2).aliases n = S.aliases n := by
  intro n
  by_cases hne : snaps = []
  · subst hne; rfl
  · by_cases hn1 : n = nn
    · rw [hn1]
      exact (rename_redo_main o nn S snaps hall _ hne).1
    · by_cases hn2 : n = o
      · rcases hold hne with h | h
        · exact absurd (hn2.trans h.symm) hn1
        · rw [hn2, (rename_redo_main o nn S snaps hall _ hne).2
                (fun hh => hn1 (hn2.trans hh)), h]
      · rw [rename_pass_other snaps o nn _ n hn2 hn1,
            rename_pass_other snaps nn o S n hn1 hn2]

/-! ## Lemmas: push, stamping, stack plumbing -/

theorem oget_stamp (op : RawOp) (now : String) (k : String) (hk : k ≠ "timestamp") :
    oget (stampTimestamp op now) k = oget op k := by
  unfold stampTimestamp
  by_cases h : hasKey op "timestamp" = true
  · rw [if_pos h]
  · rw [if_neg h]
    unfold oget
    rw [List.find?_append]
    cases hf : op.find? (fun kv => kv.1 = k) with
    | some kv => rfl
    | none =>
      simp only [Option.none_or]
      have hne : (decide (("timestamp" : String) = k)) = false := by
        simp only [decide_eq_false_iff_not]
        exact fun hh => hk hh.symm
      simp only [List.find?, hne]

theorem readFields_stamp (op : RawOp) (now : String) :
    readFields (stampTimestamp op now) = readFields op := by
  have h := fun (k : String) (hk : k ≠ "timestamp") => oget_stamp op now k hk
  unfold readFields ogetStr ogetSnaps ogetStrs typeDisplayOf
  rw [h "type" (by decide), h "aliases" (by decide), h "new_aliases" (by decide),
      h "old_name" (by decide), h "new_name" (by decide), h "group_name" (by decide),
      h "reassign_to" (by decide), h "added_tags" (by decide), h "removed_tags" (by decide),
      h "old_tag" (by decide), h "new_tag" (by decide), h "deleted_tag" (by decide)]

theorem exec_stamp (st : Storage) (op : RawOp) (now : String) (d : Dir) :
    _execute_operation st (stampTimestamp op now) d = _execute_operation st op d := by
  unfold _execute_operation
  rw [readFields_stamp]

theorem validShape_parts {op : RawOp} (hv : validShape op = true) :
    hasKey op "type" = true ∧ hasKey op "aliases" = true ∧
    typeKnown op = true ∧ aliasesIsList op = true := by
  unfold validShape at hv
  simp only [Bool.and_eq_true] at hv
  tauto

theorem push_ok (hm : HistoryManager) (op : RawOp) (now : String) (hv : validShape op = true) :
    hm.push op now = Except.ok (HistoryManager.save
      { hm with undo := trimIf (hm.undo ++ [stampTimestamp op now]), redo := [] }) := by
  obtain ⟨h1, h2, h3, h4⟩ := validShape_parts hv
  unfold HistoryManager.push
  rw [h1, h2, h3, h4]
  rfl

theorem typeKnown_cases {op : RawOp} (h : typeKnown op = true) :
    ∃ t, oget op "type" = some (OVal.ostr t) ∧ t ∈ known_types := by
  unfold typeKnown at h
  cases ho : oget op "type" with
  | none => rw [ho] at h; cases h
  | some v =>
    cases v with
    | ostr s =>
      rw [ho] at h
      exact ⟨s, rfl, by simpa using h⟩
    | onone => rw [ho] at h; cases h
    | ostrs xs => rw [ho] at h; cases h
    | osnaps xs => rw [ho] at h; cases h

theorem getLast?_trimIf_concat (l : List RawOp) (x : RawOp) :
    (trimIf (l ++ [x])).getLast? = some x := by
  unfold trimIf
  by_cases h : (l ++ [x]).length > MAX_HISTORY
  · rw [if_pos h]
    have hle : (l ++ [x]).length - MAX_HISTORY ≤ l.length := by
      simp only [List.length_append, List.length_singleton, MAX_HISTORY] at h ⊢
      omega
    rw [List.drop_append_of_le_length hle]
    exact List.getLast?_concat _
  · rw [if_neg h]
    exact List.getLast?_concat _

theorem trimIf_small {l : List RawOp} (h : l.length ≤ MAX_HISTORY) : trimIf l = l := by
  unfold trimIf
  rw [if_neg (by omega)]

theorem snapB_true {sn : Snap} {p : Alias → Bool} (h : snapB sn p = true) :
    ∃ a, Alias.from_dict sn = PyResult.ok a ∧ p a = true := by
  unfold snapB at h
  cases hd : Alias.from_dict sn with
  | exn => rw [hd] at h; cases h
  | ok a => rw [hd] at h; exact ⟨a, rfl, h⟩

theorem targeted_self {snaps : List Snap} {eff : Alias → Eff} {sn : Snap} {a : Alias}
    (hsn : sn ∈ snaps) (hd : Alias.from_dict sn = PyResult.ok a)
    {w : Option Alias} (he : eff a = some (a.name, w)) :
    targeted (snaps.map (snapEffA eff)) a.name = true := by
  apply targeted_of_mem (w := w)
  rw [List.mem_map]
  refine ⟨sn, hsn, ?_⟩
  unfold snapEffA
  rw [hd]
  exact he

theorem roundtrip_uncond (snaps : List Snap) (S : Storage)
    (fnU fnR : Alias → Storage → Storage × PyResult Bool)
    (WU WR : Alias → Alias)
    (hU : FnEffProp fnU (fun a => some (a.name, some (WU a))))
    (hR : FnEffProp fnR (fun a => some (a.name, some (WR a))))
    (h : ∀ sn ∈ snaps, ∀ a, Alias.from_dict sn = PyResult.ok a → S.aliases a.name = some (WR a)) :
    ∀ n, ((_for_each_alias snaps fnR ((_for_each_alias snaps fnU S).2.2)).2.2).aliases n
      = S.aliases n := by
  apply roundtrip_alias_passes snaps snaps S fnU fnR _ _ hU hR
  · intro sn hsn a hd k w hew
    simp only [Option.some.injEq, Prod.mk.injEq] at hew
    obtain ⟨hk, hw⟩ := hew
    rw [← hk]
    exact targeted_self hsn hd rfl
  · intro sn hsn a hd k w hew
    simp only [Option.some.injEq, Prod.mk.injEq] at hew
    obtain ⟨hk, hw⟩ := hew
    rw [← hw, ← hk]
    exact (h sn hsn a hd).symm

theorem targeted_self2 {snaps : List Snap} {eff : Alias → Eff} {sn : Snap} {a : Alias}
    (hsn : sn ∈ snaps) (hd : Alias.from_dict sn = PyResult.ok a)
    (he : ∃ w, eff a = some (a.name, w)) :
    targeted (snaps.map (snapEffA eff)) a.name = true := by
  obtain ⟨w, he⟩ := he
  exact targeted_self hsn hd he

/-- Executing the recorded operation's undo and then its redo against the
post-forward store restores the store, for every kind, under
`recordConsistent` (which for `tag_rename` contains the extra snapshot
condition forced by the C1 counterexample). -/
theorem exec_undo_redo (op : RawOp) (S : Storage)
    (hv : validShape op = true) (hc : recordConsistent op S = true) :
    ∀ n, ((_execute_operation ((_execute_operation S op Dir.undo).2.2.2) op Dir.redo).2.2.2).aliases n
      = S.aliases n := by
  intro n
  obtain ⟨h1, h2, h3, h4⟩ := validShape_parts hv
  obtain ⟨t, ho, ht⟩ := typeKnown_cases h3
  have hft : (readFields op).op_type = some t := by
    unfold readFields ogetStr
    rw [ho]
  unfold _execute_operation execCore
  dsimp only
  unfold recordConsistent at hc
  dsimp only at hc
  simp only [known_types, List.mem_cons, List.not_mem_nil, or_false] at ht
  rcases ht with rfl | rfl | rfl | rfl | rfl | rfl | rfl | rfl | rfl | rfl | rfl | rfl | rfl | rfl <;>
    simp only [execBody, hft, Option.some.injEq, String.reduceEq, if_true, if_false,
      reduceCtorEq, decide_eq_true_eq, decide_False, decide_True, Bool.or_self,
      Bool.false_eq_true, false_or, or_self, or_false, or_true, true_or,
      Storage.create_backup, Storage.save] at hc ⊢
  -- add
  · rw [List.all_eq_true] at hc
    apply roundtrip_add
    intro sn hsn
    obtain ⟨a, hd, hp⟩ := snapB_true (hc sn hsn)
    exact ⟨a, hd, of_decide_eq_true hp⟩
  -- remove
  · rw [List.all_eq_true] at hc
    apply roundtrip_remove
    intro sn hsn
    obtain ⟨a, hd, hp⟩ := snapB_true (hc sn hsn)
    exact ⟨a, hd, of_decide_eq_true hp⟩
  -- edit
  · rw [Bool.and_eq_true, List.all_eq_true, List.all_eq_true] at hc
    obtain ⟨hc1, hc2⟩ := hc
    apply roundtrip_edit
    · intro sn hsn a hd
      obtain ⟨a2, hd2, hp⟩ := snapB_true (hc1 sn hsn)
      rw [hd] at hd2
      cases hd2
      rw [List.any_eq_true] at hp
      obtain ⟨sn2, hsn2, hp2⟩ := hp
      obtain ⟨a3, hd3, hp3⟩ := snapB_true hp2
      exact ⟨sn2, hsn2, a3, hd3, of_decide_eq_true hp3⟩
    · intro sn2 hsn2 a2 hd2
      obtain ⟨a3, hd3, hp⟩ := snapB_true (hc2 sn2 hsn2)
      rw [hd2] at hd3
      cases hd3
      exact of_decide_eq_true hp
  -- import
  · rw [List.all_eq_true] at hc
    apply roundtrip_add
    intro sn hsn
    obtain ⟨a, hd, hp⟩ := snapB_true (hc sn hsn)
    exact ⟨a, hd, of_decide_eq_true hp⟩
  -- rename
  · cases hol : (readFields op).old_name with
    | none =>
      rw [hol] at hc
      cases hnn : (readFields op).new_name with
      | none => rw [hnn] at hc; cases hc
      | some nn => rw [hnn] at hc; cases hc
    | some o =>
      cases hnn : (readFields op).new_name with
      | none => rw [hol, hnn] at hc; cases hc
      | some nn =>
        rw [hol, hnn] at hc
        dsimp only at hc
        rw [Bool.and_eq_true, List.all_eq_true] at hc
        obtain ⟨hc1, hc2⟩ := hc
        dsimp only [Option.getD]
        apply roundtrip_rename
        · intro sn hsn
          obtain ⟨a, hd, hp⟩ := snapB_true (hc1 sn hsn)
          exact ⟨a, hd, of_decide_eq_true hp⟩
        · intro hne
          rw [Bool.or_eq_true, Bool.or_eq_true] at hc2
          rcases hc2 with hE | hc2 | hc2
          · exact absurd (List.isEmpty_iff.mp hE) hne
          · exact Or.inl (of_decide_eq_true hc2)
          · exact Or.inr (of_decide_eq_true hc2)
  -- group_add
  · rw [List.all_eq_true] at hc
    apply roundtrip_uncond _ S _ _ (fun a => { a with group := none })
      (fun a => { a with group := (readFields op).group_name })
      (setGroupFn_eff none) (setGroupFn_eff _)
    intro sn hsn a hd
    obtain ⟨a2, hd2, hp⟩ := snapB_true (hc sn hsn)
    rw [hd] at hd2
    cases hd2
    exact of_decide_eq_true hp
  -- group_remove
  · rw [List.all_eq_true] at hc
    apply roundtrip_uncond _ S _ _ (fun a => { a with group := (readFields op).group_name })
      (fun a => { a with group := none })
      (setGroupFn_eff _) (setGroupFn_eff none)
    intro sn hsn a hd
    obtain ⟨a2, hd2, hp⟩ := snapB_true (hc sn hsn)
    rw [hd] at hd2
    cases hd2
    exact of_decide_eq_true hp
  -- group_delete
  · rw [List.all_eq_true] at hc
    apply roundtrip_uncond _ S _ _ (fun a => { a with group := (readFields op).group_name })
      (fun a => { a with group := (readFields op).reassign_to })
      (setGroupFn_eff _) (setGroupFn_eff _)
    intro sn hsn a hd
    obtain ⟨a2, hd2, hp⟩ := snapB_true (hc sn hsn)
    rw [hd] at hd2
    cases hd2
    exact of_decide_eq_true hp
  -- tag_add
  · rw [List.all_eq_true] at hc
    apply roundtrip_uncond _ S _ _
      (fun a => { a with tags := _remove_tags a.tags (readFields op).added_tags })
      (fun a => { a with tags := _add_tags a.tags (readFields op).added_tags })
      (tagsRemoveFn_eff _) (tagsAddFn_eff _)
    intro sn hsn a hd
    obtain ⟨a2, hd2, hp⟩ := snapB_true (hc sn hsn)
    rw [hd] at hd2
    cases hd2
    exact of_decide_eq_true hp
  -- tag_remove
  · rw [List.all_eq_true] at hc
    apply roundtrip_uncond _ S _ _
      (fun a => { a with tags := _add_tags a.tags (readFields op).removed_tags })
      (fun a => { a with tags := _remove_tags a.tags (readFields op).removed_tags })
      (tagsAddFn_eff _) (tagsRemoveFn_eff _)
    intro sn hsn a hd
    obtain ⟨a2, hd2, hp⟩ := snapB_true (hc sn hsn)
    rw [hd] at hd2
    cases hd2
    exact of_decide_eq_true hp
  -- tag_rename
  · rw [List.all_eq_true] at hc
    apply roundtrip_alias_passes _ _ S _ _
      (effTagRename (readFields op).new_tag (readFields op).old_tag)
      (effTagRename (readFields op).old_tag (readFields op).new_tag)
      (tagRenameFn_eff _ _) (tagRenameFn_eff _ _)
    · intro sn hsn a hd k w hew
      unfold effTagRename at hew
      by_cases hg : optMem (readFields op).new_tag a.tags = true
      · rw [if_pos hg] at hew
        simp only [Option.some.injEq, Prod.mk.injEq] at hew
        obtain ⟨hk, hw⟩ := hew
        obtain ⟨a2, hd2, hp⟩ := snapB_true (hc sn hsn)
        rw [hd] at hd2
        cases hd2
        rw [Bool.and_eq_true] at hp
        obtain ⟨hp1, hp2⟩ := hp
        have hold : optMem (readFields op).old_tag a.tags = true := by
          rw [Bool.or_eq_true] at hp1
          rcases hp1 with hp1 | hp1
          · rw [Bool.not_eq_true'] at hp1
            rw [hg] at hp1
            cases hp1
          · exact hp1
        rw [← hk]
        apply targeted_self2 hsn hd
        exact ⟨some { a with tags := a.tags.map (fun tag =>
            if some tag = (readFields op).old_tag then (readFields op).new_tag.getD "" else tag) },
          by unfold effTagRename; rw [if_pos hold]⟩
      · rw [if_neg hg] at hew
        cases hew
    · intro sn hsn a hd k w hew
      unfold effTagRename at hew
      by_cases hg : optMem (readFields op).old_tag a.tags = true
      · rw [if_pos hg] at hew
        simp only [Option.some.injEq, Prod.mk.injEq] at hew
        obtain ⟨hk, hw⟩ := hew
        obtain ⟨a2, hd2, hp⟩ := snapB_true (hc sn hsn)
        rw [hd] at hd2
        cases hd2
        rw [Bool.and_eq_true] at hp
        obtain ⟨hp1, hp2⟩ := hp
        rw [Bool.or_eq_true] at hp2
        rcases hp2 with hp2 | hp2
        · rw [Bool.not_eq_true'] at hp2
          rw [hg] at hp2
          cases hp2
        · rw [← hw, ← hk]
          exact (of_decide_eq_true hp2).symm
      · rw [if_neg hg] at hew
        cases hew
  -- tag_delete
  · rw [List.all_eq_true] at hc
    apply roundtrip_uncond _ S _ _
      (fun a => { a with tags := _add_tags a.tags [(readFields op).deleted_tag.getD ""] })
      (fun a => { a with tags := _remove_tags a.tags [(readFields op).deleted_tag.getD ""] })
      (tagsAddFn_eff _) (tagsRemoveFn_eff _)
    intro sn hsn a hd
    obtain ⟨a2, hd2, hp⟩ := snapB_true (hc sn hsn)
    rw [hd] at hd2
    cases hd2
    exact of_decide_eq_true hp
  -- group_import
  · rw [List.all_eq_true] at hc
    apply roundtrip_alias_passes _ _ S _ _
      (effGroupImportUndo (readFields op).group_name)
      (effSetGroup (readFields op).group_name)
      (groupImportUndoFn_eff _) (setGroupFn_eff _)
    · intro sn hsn a hd k w hew
      unfold effGroupImportUndo at hew
      by_cases hg : a.group = (readFields op).group_name
      · rw [if_pos hg] at hew
        simp only [Option.some.injEq, Prod.mk.injEq] at hew
        obtain ⟨hk, hw⟩ := hew
        rw [← hk]
        apply targeted_self2 hsn hd
        exact ⟨_, rfl⟩
      · rw [if_neg hg] at hew
        cases hew
    · intro sn hsn a hd k w hew
      unfold effSetGroup at hew
      simp only [Option.some.injEq, Prod.mk.injEq] at hew
      obtain ⟨hk, hw⟩ := hew
      obtain ⟨a2, hd2, hp⟩ := snapB_true (hc sn hsn)
      rw [hd] at hd2
      cases hd2
      rw [← hw, ← hk]
      exact (of_decide_eq_true hp).symm
  -- remove_group
  · rw [List.all_eq_true] at hc
    apply roundtrip_remove
    intro sn hsn
    obtain ⟨a, hd, hp⟩ := snapB_true (hc sn hsn)
    exact ⟨a, hd, of_decide_eq_true hp⟩

/-! ## Claim theorems -/

/-- C1 (amended): for every valid operation record `op` whose push-time
validation passes and that truthfully records a forward action whose
post-state is `S` (`recordConsistent`), pushing the record and then
calling `perform_undo` followed immediately by `perform_redo` restores
the external store to `S` — for every operation kind, where for
`tag_rename` the record must additionally satisfy the snapshot condition
of `recordConsistent` (each snapshot carrying `new_tag` also carries
`old_tag`, as when snapshots record the pre-rename tag state); without
that condition the law fails (see the C1 counterexample). -/
theorem c1_roundtrip_amended (hm : HistoryManager) (op : RawOp) (now : String) (S : Storage)
    (hv : validShape op = true) (hc : recordConsistent op S = true) :
    ∃ hm1, hm.push op now = Except.ok hm1 ∧
      ∀ n, (((hm1.perform_undo S).2.1.perform_redo (hm1.perform_undo S).2.2).2.2).aliases n
        = S.aliases n := by
  refine ⟨_, push_ok hm op now hv, ?_⟩
  intro n
  have hlast : (HistoryManager.save
      { hm with undo := trimIf (hm.undo ++ [stampTimestamp op now]), redo := [] }).undo.getLast?
      = some (stampTimestamp op now) := by
    unfold HistoryManager.save
    dsimp only
    exact getLast?_trimIf_concat _ _
  unfold HistoryManager.perform_undo
  rw [hlast]
  dsimp only
  have hredo : trimIf (([] : List RawOp) ++ [stampTimestamp op now])
      = [stampTimestamp op now] := trimIf_small (by simp [MAX_HISTORY])
  unfold HistoryManager.perform_redo
  unfold HistoryManager.save
  dsimp only
  rw [hredo, List.getLast?_singleton]
  dsimp only
  rw [exec_stamp, exec_stamp]
  exact exec_undo_redo op S hv hc n

/-- Witness for C1 (amended) at a concrete `add` record. -/
theorem c1_roundtrip_amended_witness :
    validShape c1wOp = true ∧ recordConsistent c1wOp c1wStore = true ∧
      ∃ hm1, initHM.push c1wOp "T" = Except.ok hm1 ∧
        ∀ n, (((hm1.perform_undo c1wStore).2.1.perform_redo
                (hm1.perform_undo c1wStore).2.2).2.2).aliases n = c1wStore.aliases n :=
  ⟨by decide, by decide,
   c1_roundtrip_amended initHM c1wOp "T" c1wStore (by decide) (by decide)⟩

/-- C1 counterexample: `c1Op` is a valid `tag_rename` record (it passes
push-time validation, its snapshot reconstructs, and the snapshot equals
the alias currently in the store, which is the state produced by the
forward rename from `c1Pre`), yet push + `perform_undo` + `perform_redo`
does not restore the post-forward store: the alias ends with tag `old`
instead of `new`. -/
theorem c1_counterexample :
    validShape c1Op = true ∧
    c1Post = spec_tag_rename_forward c1Pre "old" "new" ∧
    Alias.from_dict c1Snap = PyResult.ok c1Alias ∧
    c1Post.aliases "t" = some c1Alias ∧
    c1Run.aliases "t" = some { name := "t", command := "c", group := none, tags := ["old"] } ∧
    c1Run.aliases "t" ≠ c1Post.aliases "t" := by
  exact ⟨by decide, rfl, by decide, by decide, by decide, by decide⟩

theorem trimIf_length_le (l : List RawOp) : (trimIf l).length ≤ MAX_HISTORY := by
  unfold trimIf
  by_cases h2 : l.length > MAX_HISTORY
  · rw [if_pos h2, List.length_drop]
    omega
  · rw [if_neg h2]
    omega

theorem push_ok_inv {hm : HistoryManager} {op : RawOp} {now : String} {hm2 : HistoryManager}
    (h : hm.push op now = Except.ok hm2) :
    hm2.undo = trimIf (hm.undo ++ [stampTimestamp op now]) ∧ hm2.redo = [] := by
  unfold HistoryManager.push at h
  split at h
  · cases h
  · split at h
    · cases h
    · split at h
      · cases h
      · cases h
        unfold HistoryManager.save
        dsimp only
        exact ⟨rfl, rfl⟩

theorem applyAction_bound (hm : HistoryManager) (act : HAction)
    (h : hm.undo.length ≤ MAX_HISTORY ∧ hm.redo.length ≤ MAX_HISTORY) :
    (applyAction hm act).undo.length ≤ MAX_HISTORY ∧
    (applyAction hm act).redo.length ≤ MAX_HISTORY := by
  obtain ⟨hu, hr⟩ := h
  cases act with
  | push op now =>
    unfold applyAction
    dsimp only
    cases hp : hm.push op now with
    | error e => dsimp only; exact ⟨hu, hr⟩
    | ok hm2 =>
      dsimp only
      obtain ⟨h2u, h2r⟩ := push_ok_inv hp
      rw [h2u, h2r]
      exact ⟨trimIf_length_le _, by simp [MAX_HISTORY]⟩
  | undo st =>
    unfold applyAction HistoryManager.perform_undo
    dsimp only
    cases hl : hm.undo.getLast? with
    | none => dsimp only; exact ⟨hu, hr⟩
    | some op =>
      unfold HistoryManager.save
      dsimp only
      exact ⟨le_trans (List.dropLast_sublist _).length_le hu, trimIf_length_le _⟩
  | redo st =>
    unfold applyAction HistoryManager.perform_redo
    dsimp only
    cases hl : hm.redo.getLast? with
    | none => dsimp only; exact ⟨hu, hr⟩
    | some op =>
      unfold HistoryManager.save
      dsimp only
      exact ⟨trimIf_length_le _, le_trans (List.dropLast_sublist _).length_le hr⟩
  | undoById st i =>
    unfold applyAction HistoryManager.perform_undo_by_id
    dsimp only
    by_cases hco : i < 1 ∨ i > (hm.undo.length : Int)
    · rw [if_pos hco]
      exact ⟨hu, hr⟩
    · rw [if_neg hco]
      unfold HistoryManager.save
      dsimp only
      exact ⟨le_trans (List.eraseIdx_sublist _ _).length_le hu, trimIf_length_le _⟩
  | redoById st i =>
    unfold applyAction HistoryManager.perform_redo_by_id
    dsimp only
    by_cases hco : i < 1 ∨ i > (hm.redo.length : Int)
    · rw [if_pos hco]
      exact ⟨hu, hr⟩
    · rw [if_neg hco]
      unfold HistoryManager.save
      dsimp only
      exact ⟨trimIf_length_le _, le_trans (List.eraseIdx_sublist _ _).length_le hr⟩

theorem runActions_bound (acts : List HAction) :
    ∀ hm, hm.undo.length ≤ MAX_HISTORY ∧ hm.redo.length ≤ MAX_HISTORY →
      (runActions hm acts).undo.length ≤ MAX_HISTORY ∧
      (runActions hm acts).redo.length ≤ MAX_HISTORY := by
  induction acts with
  | nil => intro hm h; exact h
  | cons a rest ih =>
    intro hm h
    exact ih _ (applyAction_bound hm a h)

/-- C2: after any sequence of calls to push, perform_undo, perform_redo,
perform_undo_by_id and perform_redo_by_id on a fresh manager, the undo
stack and the redo stack each contain at most MAX_HISTORY = 20 records;
since this holds for every sequence, it holds immediately after every
such call. -/
theorem c2_stack_bound (acts : List HAction) :
    (runActions initHM acts).undo.length ≤ MAX_HISTORY ∧
    (runActions initHM acts).redo.length ≤ MAX_HISTORY :=
  runActions_bound acts initHM ⟨by decide, by decide⟩

theorem mem_of_getLast?_eq {l : List RawOp} {x : RawOp} (h : l.getLast? = some x) : x ∈ l := by
  obtain ⟨hne, hx⟩ := List.mem_getLast?_eq_getLast (l := l) (x := x) h
  rw [hx]
  exact List.getLast_mem hne

theorem getD_mem_of_lt {l : List RawOp} {n : Nat} (h : n < l.length) : l.getD n [] ∈ l := by
  rw [List.getD_eq_getElem?_getD, List.getElem?_eq_getElem h]
  simp only [Option.getD_some]
  exact List.getElem_mem h

theorem trimIf_subset (l : List RawOp) : trimIf l ⊆ l := by
  unfold trimIf
  by_cases h : l.length > MAX_HISTORY
  · rw [if_pos h]
    exact List.drop_subset _ _
  · rw [if_neg h]
    exact fun x hx => hx

theorem hasKey_stamp {op : RawOp} {k : String} (now : String) (h : hasKey op k = true) :
    hasKey (stampTimestamp op now) k = true := by
  unfold stampTimestamp
  by_cases ht : hasKey op "timestamp" = true
  · rw [if_pos ht]
    exact h
  · rw [if_neg ht]
    unfold hasKey at h ⊢
    rw [List.any_append, h, Bool.true_or]

theorem validShape_stamp {op : RawOp} (now : String) (h : validShape op = true) :
    validShape (stampTimestamp op now) = true := by
  obtain ⟨h1, h2, h3, h4⟩ := validShape_parts h
  unfold validShape
  have ht : typeKnown (stampTimestamp op now) = true := by
    unfold typeKnown at h3 ⊢
    rw [oget_stamp op now "type" (by decide)]
    exact h3
  have ha : aliasesIsList (stampTimestamp op now) = true := by
    unfold aliasesIsList at h4 ⊢
    rw [oget_stamp op now "aliases" (by decide)]
    exact h4
  rw [hasKey_stamp now h1, hasKey_stamp now h2, ht, ha]
  rfl

theorem push_ok_valid {hm : HistoryManager} {op : RawOp} {now : String} {hm2 : HistoryManager}
    (h : hm.push op now = Except.ok hm2) : validShape op = true := by
  unfold HistoryManager.push at h
  split at h
  · cases h
  · split at h
    · cases h
    · split at h
      · cases h
      · rename_i hA hB hC
        have hA2 := not_not.mp hA
        have hB2 := not_not.mp hB
        have hC2 := not_not.mp hC
        rw [Bool.and_eq_true] at hA2
        unfold validShape
        rw [hA2.1, hA2.2, hB2, hC2]
        rfl

theorem stacksValid_parts {hm : HistoryManager} (h : stacksValid hm = true) :
    (∀ x ∈ hm.undo, validShape x = true) ∧ (∀ x ∈ hm.redo, validShape x = true) := by
  unfold stacksValid at h
  rw [List.all_append, Bool.and_eq_true, List.all_eq_true, List.all_eq_true] at h
  exact h

theorem stacksValid_mk {u r : List RawOp} {f : Journal}
    (hu : ∀ x ∈ u, validShape x = true) (hr : ∀ x ∈ r, validShape x = true) :
    stacksValid ⟨u, r, f⟩ = true := by
  unfold stacksValid
  rw [List.all_append, Bool.and_eq_true, List.all_eq_true, List.all_eq_true]
  exact ⟨hu, hr⟩

theorem applyAction_valid (hm : HistoryManager) (act : HAction)
    (h : stacksValid hm = true) : stacksValid (applyAction hm act) = true := by
  obtain ⟨hu, hr⟩ := stacksValid_parts h
  cases act with
  | push op now =>
    unfold applyAction
    dsimp only
    cases hp : hm.push op now with
    | error e => exact h
    | ok hm2 =>
      obtain ⟨h2u, h2r⟩ := push_ok_inv hp
      have hvo := validShape_stamp now (push_ok_valid hp)
      have : stacksValid ⟨hm2.undo, hm2.redo, hm2.file⟩ = true := by
        apply stacksValid_mk
        · rw [h2u]
          intro x hx
          rcases List.mem_append.mp (trimIf_subset _ hx) with hx2 | hx2
          · exact hu x hx2
          · rw [List.mem_singleton.mp hx2]
            exact hvo
        · rw [h2r]
          intro x hx
          cases hx
      exact this
  | undo st =>
    unfold applyAction HistoryManager.perform_undo
    dsimp only
    cases hl : hm.undo.getLast? with
    | none => exact h
    | some op =>
      unfold HistoryManager.save
      dsimp only
      apply stacksValid_mk
      · exact fun x hx => hu x (List.dropLast_subset _ hx)
      · intro x hx
        rcases List.mem_append.mp (trimIf_subset _ hx) with hx2 | hx2
        · exact hr x hx2
        · rw [List.mem_singleton.mp hx2]
          exact hu op (mem_of_getLast?_eq hl)
  | redo st =>
    unfold applyAction HistoryManager.perform_redo
    dsimp only
    cases hl : hm.redo.getLast? with
    | none => exact h
    | some op =>
      unfold HistoryManager.save
      dsimp only
      apply stacksValid_mk
      · intro x hx
        rcases List.mem_append.mp (trimIf_subset _ hx) with hx2 | hx2
        · exact hu x hx2
        · rw [List.mem_singleton.mp hx2]
          exact hr op (mem_of_getLast?_eq hl)
      · exact fun x hx => hr x (List.dropLast_subset _ hx)
  | undoById st i =>
    unfold applyAction HistoryManager.perform_undo_by_id
    dsimp only
    by_cases hco : i < 1 ∨ i > (hm.undo.length : Int)
    · rw [if_pos hco]
      exact h
    · rw [if_neg hco]
      unfold HistoryManager.save
      dsimp only
      push_neg at hco
      have hlt : hm.undo.length - i.toNat < hm.undo.length := by
        obtain ⟨hc1, hc2⟩ := hco
        have : (1 : Int) ≤ i := hc1
        have h0 : 0 < i.toNat := by omega
        have h1 : i.toNat ≤ hm.undo.length := by omega
        omega
      apply stacksValid_mk
      · exact fun x hx => hu x ((List.eraseIdx_sublist _ _).subset hx)
      · intro x hx
        rcases List.mem_append.mp (trimIf_subset _ hx) with hx2 | hx2
        · exact hr x hx2
        · rw [List.mem_singleton.mp hx2]
          exact hu _ (getD_mem_of_lt hlt)
  | redoById st i =>
    unfold applyAction HistoryManager.perform_redo_by_id
    dsimp only
    by_cases hco : i < 1 ∨ i > (hm.redo.length : Int)
    · rw [if_pos hco]
      exact h
    · rw [if_neg hco]
      unfold HistoryManager.save
      dsimp only
      push_neg at hco
      have hlt : hm.redo.length - i.toNat < hm.redo.length := by
        obtain ⟨hc1, hc2⟩ := hco
        have : (1 : Int) ≤ i := hc1
        have h0 : 0 < i.toNat := by omega
        have h1 : i.toNat ≤ hm.redo.length := by omega
        omega
      apply stacksValid_mk
      · intro x hx
        rcases List.mem_append.mp (trimIf_subset _ hx) with hx2 | hx2
        · exact hu x hx2
        · rw [List.mem_singleton.mp hx2]
          exact hr _ (getD_mem_of_lt hlt)
      · exact fun x hx => hr x ((List.eraseIdx_sublist _ _).subset hx)

theorem runActions_valid (acts : List HAction) :
    ∀ hm, stacksValid hm = true → stacksValid (runActions hm acts) = true := by
  induction acts with
  | nil => intro hm h; exact h
  | cons a rest ih =>
    intro hm h
    exact ih _ (applyAction_valid hm a h)

/-- C4 (amended): at every state reachable through push, perform_undo,
perform_redo and the by-id variants from a state whose stacks satisfy
the shape invariant (known `type`, `aliases` a sequence), every record in
either stack satisfies it: push rejects violating records before they
enter a stack, and the replay entry points only move already-validated
records between the stacks.  However, `load()` performs no validation, so
records obtained from a foreign or hand-edited journal document can
violate the invariant (see the C4 counterexample). -/
theorem c4_invariant_amended (hm : HistoryManager) (acts : List HAction)
    (h : stacksValid hm = true) : stacksValid (runActions hm acts) = true :=
  runActions_valid acts hm h

/-- Witness for C4 (amended): one push and one undo on a fresh manager. -/
theorem c4_invariant_amended_witness :
    stacksValid initHM = true ∧
      stacksValid (runActions initHM [HAction.push c4wOp "T", HAction.undo emptyStore]) = true :=
  ⟨by decide, c4_invariant_amended initHM [HAction.push c4wOp "T", HAction.undo emptyStore] (by decide)⟩

/-- C4 counterexample: `load()` on a parsed journal document containing a
record with an unknown `type` places that record in the undo stack even
though it fails the push-time validation — so it is not the case that
records violating the invariant never enter a stack when obtained via
`load()`. -/
theorem c4_counterexample :
    (HistoryManager.fromFile (FileContent.parsed ⟨[c4Bad], []⟩)).undo = [c4Bad] ∧
    validShape c4Bad = false ∧
    stacksValid (HistoryManager.fromFile (FileContent.parsed ⟨[c4Bad], []⟩)) = false := by
  exact ⟨rfl, by decide, by decide⟩

/-- C5: for every operation record that passes validation, push stamps a
`timestamp` field if one is absent (and leaves the record unchanged if
one is present), appends the record to the undo stack, trims the undo
stack to the last MAX_HISTORY entries, clears the redo stack entirely —
unconditionally, whatever the redo stack held — and persists the journal
(the file receives the trimmed stacks). -/
theorem c5_push_success (hm : HistoryManager) (op : RawOp) (now : String)
    (hv : validShape op = true) :
    hm.push op now = Except.ok
      { undo := trimIf (hm.undo ++ [stampTimestamp op now])
        redo := []
        file := { undo := trimLast (trimIf (hm.undo ++ [stampTimestamp op now])), redo := [] } } ∧
    (hasKey op "timestamp" = true → stampTimestamp op now = op) ∧
    (hasKey op "timestamp" = false → stampTimestamp op now = op ++ [("timestamp", OVal.ostr now)]) ∧
    (∀ l : List RawOp, l.length > MAX_HISTORY → trimIf l = l.drop (l.length - MAX_HISTORY)) ∧
    (∀ l : List RawOp, l.length ≤ MAX_HISTORY → trimIf l = l) := by
  refine ⟨?_, ?_, ?_, ?_, ?_⟩
  · rw [push_ok hm op now hv]
    rfl
  · intro h
    unfold stampTimestamp
    rw [if_pos h]
  · intro h
    unfold stampTimestamp
    rw [if_neg (by rw [h]; exact fun hh => Bool.false_ne_true hh)]
  · intro l h
    unfold trimIf
    rw [if_pos h]
  · intro l h
    exact trimIf_small h

/-- Witness for C5 at a concrete record without a timestamp, pushed onto
a manager with a non-empty redo stack. -/
theorem c5_push_success_witness :
    validShape c5wOp = true ∧
      (HistoryManager.push ⟨[], [c4wOp], ⟨[], []⟩⟩ c5wOp "T" = Except.ok
        { undo := trimIf (([] : List RawOp) ++ [stampTimestamp c5wOp "T"])
          redo := []
          file := { undo := trimLast (trimIf (([] : List RawOp) ++ [stampTimestamp c5wOp "T"]))
                    redo := [] } }) :=
  ⟨by decide, (c5_push_success ⟨[], [c4wOp], ⟨[], []⟩⟩ c5wOp "T" (by decide)).1⟩

theorem bool_false {b : Bool} (h : ¬b = true) : b = false := by
  cases b
  · rfl
  · exact absurd rfl h

/-- C6: push(op) fails if and only if op is missing the `type` or
`aliases` key, or `type` is not in the known-kind set, or `aliases` is
not a sequence — with a distinct error for each of the three cases,
checked in that order — and an erroring push performs no mutation (the
caller's manager state is unchanged). -/
theorem c6_push_errors (hm : HistoryManager) (op : RawOp) (now : String) :
    (hm.push op now = Except.error PushError.invalidOperation ↔
      (hasKey op "type" = false ∨ hasKey op "aliases" = false)) ∧
    (hm.push op now = Except.error PushError.unknownType ↔
      (hasKey op "type" = true ∧ hasKey op "aliases" = true ∧ typeKnown op = false)) ∧
    (hm.push op now = Except.error PushError.aliasesNotList ↔
      (hasKey op "type" = true ∧ hasKey op "aliases" = true ∧ typeKnown op = true ∧
        aliasesIsList op = false)) ∧
    ((∃ hm2, hm.push op now = Except.ok hm2) ↔ validShape op = true) ∧
    (PushError.invalidOperation ≠ PushError.unknownType ∧
      PushError.invalidOperation ≠ PushError.aliasesNotList ∧
      PushError.unknownType ≠ PushError.aliasesNotList) ∧
    (∀ e, hm.push op now = Except.error e → applyAction hm (HAction.push op now) = hm) := by
  have e1 : ¬((hasKey op "type" && hasKey op "aliases") = true) →
      hm.push op now = Except.error PushError.invalidOperation := by
    intro h
    unfold HistoryManager.push
    rw [if_pos h]
  have e2 : (hasKey op "type" && hasKey op "aliases") = true → typeKnown op = false →
      hm.push op now = Except.error PushError.unknownType := by
    intro h1 h2
    unfold HistoryManager.push
    rw [if_neg (not_not_intro h1), if_pos (by rw [h2]; exact Bool.false_ne_true)]
  have e3 : (hasKey op "type" && hasKey op "aliases") = true → typeKnown op = true →
      aliasesIsList op = false →
      hm.push op now = Except.error PushError.aliasesNotList := by
    intro h1 h2 h3
    unfold HistoryManager.push
    rw [if_neg (not_not_intro h1), if_neg (not_not_intro h2),
        if_pos (by rw [h3]; exact Bool.false_ne_true)]
  by_cases hT : hasKey op "type" = true
  · by_cases hA : hasKey op "aliases" = true
    · by_cases hK : typeKnown op = true
      · by_cases hL : aliasesIsList op = true
        · have hv : validShape op = true := by
            unfold validShape
            rw [hT, hA, hK, hL]
            rfl
          have hpush := push_ok hm op now hv
          simp [hpush, hT, hA, hK, hL, hv]
        · have hL2 := bool_false hL
          have hpush := e3 (by rw [hT, hA]; rfl) hK hL2
          simp [hpush, hT, hA, hK, hL2, validShape, applyAction]
      · have hK2 := bool_false hK
        have hpush := e2 (by rw [hT, hA]; rfl) hK2
        simp [hpush, hT, hA, hK2, validShape, applyAction]
    · have hA2 := bool_false hA
      have hpush := e1 (by rw [Bool.and_eq_true]; exact fun hh => hA (hh.2))
      simp [hpush, hT, hA2, validShape, applyAction]
  · have hT2 := bool_false hT
    have hpush := e1 (by rw [Bool.and_eq_true]; exact fun hh => hT (hh.1))
    simp [hpush, hT2, validShape, applyAction]

/-- Witness for C6 at a record whose `aliases` value is a string. -/
theorem c6_push_errors_witness :
    HistoryManager.push initHM [("type", OVal.ostr "add"), ("aliases", OVal.ostr "not_a_list")] "T"
      = Except.error PushError.aliasesNotList :=
  (c6_push_errors initHM [("type", OVal.ostr "add"), ("aliases", OVal.ostr "not_a_list")] "T").2.2.1.mpr
    (by refine ⟨by decide, by decide, by decide, by decide⟩)

theorem containsSub_append_right (sub l1 l2 : List Char) (h : containsSub sub l2 = true) :
    containsSub sub (l1 ++ l2) = true := by
  induction l1 with
  | nil => exact h
  | cons c t ih =>
    show (sub.isPrefixOf (c :: (t ++ l2)) || containsSub sub (t ++ l2)) = true
    rw [ih, Bool.or_true]

theorem containsSub_of_prefix (sub l : List Char) (h : sub.isPrefixOf l = true) :
    containsSub sub l = true := by
  cases l with
  | nil =>
    cases sub with
    | nil => rfl
    | cons c t => simp [List.isPrefixOf] at h
  | cons c t =>
    show (sub.isPrefixOf (c :: t) || containsSub sub t) = true
    rw [h, Bool.true_or]

theorem containsSub_self_append (sub l : List Char) : containsSub sub (sub ++ l) = true := by
  apply containsSub_of_prefix
  rw [List.isPrefixOf_iff_prefix]
  exact List.prefix_append _ _

theorem format_message_skipped (action op_type : String) (count total skipped : Nat)
    (h : skipped > 0) :
    _format_message action op_type count total skipped =
      action ++ " " ++ op_type ++ " (" ++ toString count ++ " of " ++ toString total ++
        " aliases " ++ (if strContains op_type "remove" then "restored" else "processed") ++
        ", " ++ toString skipped ++ " skipped)" := by
  unfold _format_message
  rw [if_pos h]
  by_cases ha : (action = "Undid" || action = "Redid") = true
  · rw [if_pos ha]
  · rw [if_neg ha]

theorem format_message_reports (action op_type : String) (count total skipped : Nat)
    (h : skipped > 0) :
    strContains (_format_message action op_type count total skipped) "skipped" = true ∧
    strContains (_format_message action op_type count total skipped) (toString count) = true ∧
    strContains (_format_message action op_type count total skipped) (toString total) = true ∧
    strContains (_format_message action op_type count total skipped) (toString skipped) = true := by
  rw [format_message_skipped action op_type count total skipped h]
  unfold strContains
  simp only [String.data_append, List.append_assoc]
  refine ⟨?_, ?_, ?_, ?_⟩
  · iterate 11 apply containsSub_append_right
    decide
  · iterate 4 apply containsSub_append_right
    exact containsSub_self_append _ _
  · iterate 6 apply containsSub_append_right
    exact containsSub_self_append _ _
  · iterate 10 apply containsSub_append_right
    exact containsSub_self_append _ _

/-- C7: in a batch apply, a snapshot whose reconstruction raises, or
whose per-item action raises, increments the skip counter and processing
continues with the remaining items (starting from whatever store state
the failed action left behind), for both `_for_each_alias` and
`_for_each_name` (where a missing or falsy `name` is likewise skipped);
the whole operation is never aborted by one malformed item.  Whenever at
least one item was skipped, the returned message reports the performed
count, the total count and the skipped count and contains the word
"skipped".  A concrete batch of one well-formed and one malformed
snapshot yields performed = 1, skipped = 1. -/
theorem c7_batch_skip :
    (∀ (sn : Snap) (rest : List Snap) (fn : Alias → Storage → Storage × PyResult Bool) (st : Storage),
      Alias.from_dict sn = PyResult.exn →
      _for_each_alias (sn :: rest) fn st =
        ((_for_each_alias rest fn st).1, (_for_each_alias rest fn st).2.1 + 1,
         (_for_each_alias rest fn st).2.2)) ∧
    (∀ (sn : Snap) (rest : List Snap) (fn : Alias → Storage → Storage × PyResult Bool) (st : Storage)
      (a : Alias) (st1 : Storage),
      Alias.from_dict sn = PyResult.ok a → fn a st = (st1, PyResult.exn) →
      _for_each_alias (sn :: rest) fn st =
        ((_for_each_alias rest fn st1).1, (_for_each_alias rest fn st1).2.1 + 1,
         (_for_each_alias rest fn st1).2.2)) ∧
    (∀ (sn : Snap) (rest : List Snap) (fn : FVal → Storage → Storage × PyResult Bool) (st : Storage),
      (dget sn "name" = none ∨ ∃ v, dget sn "name" = some v ∧ fvalFalsy v = true) →
      _for_each_name (sn :: rest) fn st =
        ((_for_each_name rest fn st).1, (_for_each_name rest fn st).2.1 + 1,
         (_for_each_name rest fn st).2.2)) ∧
    (∀ (sn : Snap) (rest : List Snap) (fn : FVal → Storage → Storage × PyResult Bool) (st : Storage)
      (v : FVal) (st1 : Storage),
      dget sn "name" = some v → fvalFalsy v = false → fn v st = (st1, PyResult.exn) →
      _for_each_name (sn :: rest) fn st =
        ((_for_each_name rest fn st1).1, (_for_each_name rest fn st1).2.1 + 1,
         (_for_each_name rest fn st1).2.2)) ∧
    (∀ action op_type count total skipped, skipped > 0 →
      strContains (_format_message action op_type count total skipped) "skipped" = true ∧
      strContains (_format_message action op_type count total skipped) (toString count) = true ∧
      strContains (_format_message action op_type count total skipped) (toString total) = true ∧
      strContains (_format_message action op_type count total skipped) (toString skipped) = true) ∧
    ((_execute_operation c7Store c7Op Dir.undo).2.1 = 1 ∧
     (_execute_operation c7Store c7Op Dir.undo).2.2.1 = 1 ∧
     strContains (_execute_operation c7Store c7Op Dir.undo).1 "skipped" = true) := by
  refine ⟨?_, ?_, ?_, ?_, fun a t c tt s h => format_message_reports a t c tt s h, by decide⟩
  · intro sn rest fn st hd
    show (match Alias.from_dict sn with
      | PyResult.exn =>
        let r := _for_each_alias rest fn st
        (r.1, r.2.1 + 1, r.2.2)
      | PyResult.ok al =>
        match fn al st with
        | (st1, PyResult.ok b) =>
          let r := _for_each_alias rest fn st1
          (if b = true then r.1 + 1 else r.1, r.2.1, r.2.2)
        | (st1, PyResult.exn) =>
          let r := _for_each_alias rest fn st1
          (r.1, r.2.1 + 1, r.2.2)) = _
    rw [hd]
  · intro sn rest fn st a st1 hd hf
    show (match Alias.from_dict sn with
      | PyResult.exn =>
        let r := _for_each_alias rest fn st
        (r.1, r.2.1 + 1, r.2.2)
      | PyResult.ok al =>
        match fn al st with
        | (st1, PyResult.ok b) =>
          let r := _for_each_alias rest fn st1
          (if b = true then r.1 + 1 else r.1, r.2.1, r.2.2)
        | (st1, PyResult.exn) =>
          let r := _for_each_alias rest fn st1
          (r.1, r.2.1 + 1, r.2.2)) = _
    rw [hd]
    dsimp only
    rw [hf]
  · intro sn rest fn st hv
    show (match dget sn "name" with
      | none =>
        let r := _for_each_name rest fn st
        (r.1, r.2.1 + 1, r.2.2)
      | some v =>
        if fvalFalsy v then
          let r := _for_each_name rest fn st
          (r.1, r.2.1 + 1, r.2.2)
        else
          match fn v st with
          | (st1, PyResult.ok b) =>
            let r := _for_each_name rest fn st1
            (if b = true then r.1 + 1 else r.1, r.2.1, r.2.2)
          | (st1, PyResult.exn) =>
            let r := _for_each_name rest fn st1
            (r.1, r.2.1 + 1, r.2.2)) = _
    rcases hv with hv | ⟨v, hv, hfal⟩
    · rw [hv]
    · rw [hv]
      dsimp only
      rw [if_pos hfal]
  · intro sn rest fn st v st1 hv hfal hf
    show (match dget sn "name" with
      | none =>
        let r := _for_each_name rest fn st
        (r.1, r.2.1 + 1, r.2.2)
      | some v =>
        if fvalFalsy v then
          let r := _for_each_name rest fn st
          (r.1, r.2.1 + 1, r.2.2)
        else
          match fn v st with
          | (st1, PyResult.ok b) =>
            let r := _for_each_name rest fn st1
            (if b = true then r.1 + 1 else r.1, r.2.1, r.2.2)
          | (st1, PyResult.exn) =>
            let r := _for_each_name rest fn st1
            (r.1, r.2.1 + 1, r.2.2)) = _
    rw [hv]
    dsimp only
    rw [if_neg (by rw [hfal]; exact Bool.false_ne_true), hf]

/-- Witness for C7: the malformed snapshot is skipped and processing
continues over the rest of the batch. -/
theorem c7_batch_skip_witness :
    Alias.from_dict c7Bad = PyResult.exn ∧
    _for_each_alias (c7Bad :: [c7Good]) addAliasFn c7Store =
      ((_for_each_alias [c7Good] addAliasFn c7Store).1,
       (_for_each_alias [c7Good] addAliasFn c7Store).2.1 + 1,
       (_for_each_alias [c7Good] addAliasFn c7Store).2.2) :=
  ⟨by decide, c7_batch_skip.1 c7Bad [c7Good] addAliasFn c7Store (by decide)⟩

/-- C8: for a valid 1-based id, the by-id variants operate on the record
at chronological index `len(stack) - id` (id 1 = the most recent entry),
remove exactly that record from its stack — keeping the other records in
their relative order (`take idx ++ drop (idx+1)`) — apply it in the
respective direction, and append it to the opposite stack with capacity
trimming, persisting the journal. -/
theorem c8_by_id_valid (hm : HistoryManager) (st : Storage) (i : Int) (h1 : 1 ≤ i) :
    (i ≤ (hm.undo.length : Int) →
      hm.perform_undo_by_id st i =
        ("✅ " ++ (_execute_operation st (hm.undo.getD (hm.undo.length - i.toNat) []) Dir.undo).1,
         HistoryManager.save
           { hm with
             undo := hm.undo.take (hm.undo.length - i.toNat) ++
                     hm.undo.drop (hm.undo.length - i.toNat + 1),
             redo := trimIf (hm.redo ++ [hm.undo.getD (hm.undo.length - i.toNat) []]) },
         (_execute_operation st (hm.undo.getD (hm.undo.length - i.toNat) []) Dir.undo).2.2.2)) ∧
    (i ≤ (hm.redo.length : Int) →
      hm.perform_redo_by_id st i =
        ("🔁 " ++ (_execute_operation st (hm.redo.getD (hm.redo.length - i.toNat) []) Dir.redo).1,
         HistoryManager.save
           { hm with
             undo := trimIf (hm.undo ++ [hm.redo.getD (hm.redo.length - i.toNat) []]),
             redo := hm.redo.take (hm.redo.length - i.toNat) ++
                     hm.redo.drop (hm.redo.length - i.toNat + 1) },
         (_execute_operation st (hm.redo.getD (hm.redo.length - i.toNat) []) Dir.redo).2.2.2)) ∧
    (i = 1 → hm.undo.getD (hm.undo.length - i.toNat) [] = (hm.undo.getLast?).getD []) := by
  refine ⟨?_, ?_, ?_⟩
  · intro h2
    unfold HistoryManager.perform_undo_by_id
    rw [if_neg (by push_neg; exact ⟨h1, h2⟩)]
    dsimp only
    rw [List.eraseIdx_eq_take_drop_succ]
  · intro h2
    unfold HistoryManager.perform_redo_by_id
    rw [if_neg (by push_neg; exact ⟨h1, h2⟩)]
    dsimp only
    rw [List.eraseIdx_eq_take_drop_succ]
  · intro hi
    rw [hi, List.getD_eq_getElem?_getD, List.getLast?_eq_getElem?]
    rfl

/-- Witness for C8 on a concrete manager with two undo records and one
redo record, at id 1. -/
theorem c8_by_id_valid_witness :
    (1 : Int) ≤ 1 ∧ (1 : Int) ≤ (c8HM.undo.length : Int) ∧
    c8HM.perform_undo_by_id emptyStore 1 =
      ("✅ " ++ (_execute_operation emptyStore (c8HM.undo.getD (c8HM.undo.length - (1 : Int).toNat) []) Dir.undo).1,
       HistoryManager.save
         { c8HM with
           undo := c8HM.undo.take (c8HM.undo.length - (1 : Int).toNat) ++
                   c8HM.undo.drop (c8HM.undo.length - (1 : Int).toNat + 1),
           redo := trimIf (c8HM.redo ++ [c8HM.undo.getD (c8HM.undo.length - (1 : Int).toNat) []]) },
       (_execute_operation emptyStore (c8HM.undo.getD (c8HM.undo.length - (1 : Int).toNat) []) Dir.undo).2.2.2) :=
  ⟨by decide, by decide, (c8_by_id_valid c8HM emptyStore 1 (by decide)).1 (by decide)⟩

/-- C9: an out-of-range id (id < 1 or id > stack length) makes the by-id
entry points return the invalid-operation-id message and perform no
mutation at all: the manager (both stacks and the persisted journal) and
the external store are returned unchanged, and no exception is raised
(the functions are total and always return a message). -/
theorem c9_by_id_invalid (hm : HistoryManager) (st : Storage) (i : Int) :
    ((i < 1 ∨ i > (hm.undo.length : Int)) →
      hm.perform_undo_by_id st i = (invalid_id_msg i hm.undo.length, hm, st)) ∧
    ((i < 1 ∨ i > (hm.redo.length : Int)) →
      hm.perform_redo_by_id st i = (invalid_id_msg i hm.redo.length, hm, st)) := by
  constructor
  · intro h
    unfold HistoryManager.perform_undo_by_id
    rw [if_pos h]
  · intro h
    unfold HistoryManager.perform_redo_by_id
    rw [if_pos h]

/-- Witness for C9 at id 999 and id 0 on a concrete manager. -/
theorem c9_by_id_invalid_witness :
    c8HM.perform_undo_by_id emptyStore 999 = (invalid_id_msg 999 c8HM.undo.length, c8HM, emptyStore) ∧
    c8HM.perform_redo_by_id emptyStore 0 = (invalid_id_msg 0 c8HM.redo.length, c8HM, emptyStore) :=
  ⟨(c9_by_id_invalid c8HM emptyStore 999).1 (by decide),
   (c9_by_id_invalid c8HM emptyStore 0).2 (by decide)⟩

theorem for_each_alias_counts (snaps : List Snap)
    (fn : Alias → Storage → Storage × PyResult Bool) :
    ∀ st, (_for_each_alias snaps fn st).1 + (_for_each_alias snaps fn st).2.1 ≤ snaps.length := by
  induction snaps with
  | nil =>
    intro st
    simp [_for_each_alias]
  | cons sn rest ih =>
    intro st
    unfold _for_each_alias
    cases hd : Alias.from_dict sn with
    | exn =>
      dsimp only
      have h2 := ih st
      simp only [List.length_cons]
      omega
    | ok a =>
      dsimp only
      rcases hf : fn a st with ⟨st1, rb⟩
      cases rb with
      | ok b =>
        dsimp only
        have h2 := ih st1
        simp only [List.length_cons]
        cases b with
        | false => simp only [Bool.false_eq_true, if_false]; omega
        | true => simp only [if_true]; omega
      | exn =>
        dsimp only
        have h2 := ih st1
        simp only [List.length_cons]
        omega

theorem for_each_name_counts (snaps : List Snap)
    (fn : FVal → Storage → Storage × PyResult Bool) :
    ∀ st, (_for_each_name snaps fn st).1 + (_for_each_name snaps fn st).2.1 ≤ snaps.length := by
  induction snaps with
  | nil =>
    intro st
    simp [_for_each_name]
  | cons sn rest ih =>
    intro st
    unfold _for_each_name
    cases hd : dget sn "name" with
    | none =>
      dsimp only
      have h2 := ih st
      simp only [List.length_cons]
      omega
    | some v =>
      dsimp only
      by_cases hfal : fvalFalsy v = true
      · rw [if_pos hfal]
        have h2 := ih st
        simp only [List.length_cons]
        omega
      · rw [if_neg hfal]
        rcases hf : fn v st with ⟨st1, rb⟩
        cases rb with
        | ok b =>
          dsimp only
          have h2 := ih st1
          simp only [List.length_cons]
          cases b with
          | false => simp only [Bool.false_eq_true, if_false]; omega
          | true => simp only [if_true]; omega
        | exn =>
          dsimp only
          have h2 := ih st1
          simp only [List.length_cons]
          omega

/-- C10: in every batch apply (both helpers, any per-item action),
performed + skipped is at most the number of items in the batch, and
need not equal it: concretely, a tag_rename undo whose snapshot does not
carry `new_tag` makes the per-item action return a falsy value without
raising, so its batch of one item yields performed = 0 and skipped = 0. -/
theorem c10_counts_bound :
    (∀ (snaps : List Snap) (fn : Alias → Storage → Storage × PyResult Bool) (st : Storage),
      (_for_each_alias snaps fn st).1 + (_for_each_alias snaps fn st).2.1 ≤ snaps.length) ∧
    (∀ (snaps : List Snap) (fn : FVal → Storage → Storage × PyResult Bool) (st : Storage),
      (_for_each_name snaps fn st).1 + (_for_each_name snaps fn st).2.1 ≤ snaps.length) ∧
    ((_execute_operation c10Store c10Op Dir.undo).2.1 = 0 ∧
     (_execute_operation c10Store c10Op Dir.undo).2.2.1 = 0 ∧
     (readFields c10Op).aliases.length = 1) :=
  ⟨fun snaps fn st => for_each_alias_counts snaps fn st,
   fun snaps fn st => for_each_name_counts snaps fn st,
   by decide⟩

/-- C3 (amended): for the undo direction of tag_add, tag_delete,
tag_rename and group_import, whether an alias is modified — and the
value written — is decided from the alias snapshot reconstructed from
the record (for tag_rename undo: replace new_tag with old_tag exactly in
those snapshots that currently carry new_tag in the *snapshot*), not by
re-reading the live store; the store effect is `applyEff` of an effect
list computed from the record alone.  Consequently replaying the same
record twice without intervening forward actions is still a no-op the
second time, because each targeted alias is overwritten with a value
that depends only on the snapshot. -/
theorem c3_snapshot_replay_amended (op : RawOp) (S : Storage)
    (hk : (readFields op).op_type = some "tag_add" ∨
          (readFields op).op_type = some "tag_delete" ∨
          (readFields op).op_type = some "tag_rename" ∨
          (readFields op).op_type = some "group_import") :
    (∀ n, ((_execute_operation S op Dir.undo).2.2.2).aliases n =
      applyEff ((readFields op).aliases.map (snapEffA (undoEffOf (readFields op)))) n
        (S.aliases n)) ∧
    (∀ n, ((_execute_operation ((_execute_operation S op Dir.undo).2.2.2) op Dir.undo).2.2.2).aliases n
      = ((_execute_operation S op Dir.undo).2.2.2).aliases n) := by
  have hchar : ∀ T : Storage, ∀ n, ((_execute_operation T op Dir.undo).2.2.2).aliases n =
      applyEff ((readFields op).aliases.map (snapEffA (undoEffOf (readFields op)))) n
        (T.aliases n) := by
    intro T n
    unfold _execute_operation execCore
    dsimp only
    rcases hk with hft | hft | hft | hft <;>
      simp only [execBody, undoEffOf, hft, Option.some.injEq, String.reduceEq, if_true, if_false,
        reduceCtorEq, decide_eq_true_eq, decide_False, decide_True, Bool.or_self,
        Bool.false_eq_true, false_or, or_self, or_false, Storage.create_backup, Storage.save]
    · exact for_each_alias_store _ _ _ (tagsRemoveFn_eff _) T n
    · exact for_each_alias_store _ _ _ (tagsAddFn_eff _) T n
    · exact for_each_alias_store _ _ _ (tagRenameFn_eff _ _) T n
    · exact for_each_alias_store _ _ _ (groupImportUndoFn_eff _) T n
  refine ⟨hchar S, ?_⟩
  intro n
  rw [hchar ((_execute_operation S op Dir.undo).2.2.2) n, hchar S n]
  exact applyEff_idem _ _ _

/-- Witness for C3 (amended): replaying the undo of a concrete tag_add
record twice leaves the store where one replay put it. -/
theorem c3_snapshot_replay_amended_witness :
    (readFields c3wOp).op_type = some "tag_add" ∧
    ∀ n, ((_execute_operation ((_execute_operation c3Store c3wOp Dir.undo).2.2.2)
            c3wOp Dir.undo).2.2.2).aliases n
      = ((_execute_operation c3Store c3wOp Dir.undo).2.2.2).aliases n :=
  ⟨by decide, (c3_snapshot_replay_amended c3wOp c3Store (Or.inl (by decide))).2⟩

/-- C3 counterexample: in `c3Store` the alias `t3` currently carries no
tags at all — in particular not `new_tag` — so under the claim's rule
("replace new_tag with old_tag exactly for those aliases that currently
carry new_tag in the store") the tag_rename undo would leave it
unmodified; but the code consults the recorded snapshot (which carries
`new`) and overwrites the alias, changing the store. -/
theorem c3_counterexample :
    c3Store.aliases "t3" = some { name := "t3", command := "c", group := none, tags := [] } ∧
    ((_execute_operation c3Store c3Op Dir.undo).2.2.2).aliases "t3" =
      some { name := "t3", command := "c", group := none, tags := ["old"] } ∧
    ((_execute_operation c3Store c3Op Dir.undo).2.2.2).aliases "t3" ≠ c3Store.aliases "t3" :=
  ⟨by decide, by decide, by decide⟩
